import Mathlib

/-!
# Verification of the monodep dependency-consistency engine

A shallow embedding of the core of `monodep` (a monorepo dependency checker)
and proofs about it.  The TypeScript sources embedded here are:

* `src/monorepo.ts`   — workspace graph builder (`MonorepoManager.getPackages`)
* `src/parser.ts`     — import extractor (`Parser.parse`)
* `src/analyzer.ts`   — per-package analysis (`Analyzer.analyze`)
* `src/consistency.ts`— cross-package version consistency (`ConsistencyChecker.check`)
* `src/internal-checker.ts` — internal reference checks (`InternalChecker.check`)
* `src/config.ts`     — peer dependency checks (`PeerChecker`)

JavaScript data structures are embedded as follows: a JS object used as a
string-keyed map becomes an association list `List (String × String)` in
insertion order (JSON object keys are unique); a JS `Set` becomes a
duplicate-free `List String` in insertion order; a JS `Map` becomes an
association list in insertion order.  JS truthiness on strings
(`"" `is falsy) is modelled explicitly where the source relies on it.
-/

namespace Monodep

/-! ## JS string and object primitives -/

/-- JS `String.prototype.startsWith`, over the character lists of the strings. -/
def jsStartsWith (s pre : String) : Bool :=
  pre.data.isPrefixOf s.data

/-- Auxiliary splitter: split a character list at every occurrence of `sep`,
`acc` being the (reversed) current segment. -/
def splitCharAux (sep : Char) : List Char → List Char → List (List Char)
  | [], acc => [acc.reverse]
  | c :: cs, acc =>
    if c = sep then acc.reverse :: splitCharAux sep cs []
    else splitCharAux sep cs (c :: acc)

/-- JS `String.prototype.split` with a single-character separator:
`"a//b".split('/') = ["a","","b"]`, `"".split('/') = [""]`. -/
def jsSplit (sep : Char) (s : String) : List String :=
  (splitCharAux sep s.data []).map List.asString

/-- JS property access `obj[k]` on an object embedded as an association list:
the value at the first matching key, or `none` (JS `undefined`). -/
def jsLookup (m : List (String × String)) (k : String) : Option String :=
  (m.find? (fun p => p.1 == k)).map (·.2)

/-- JS truthiness of `obj[k]` for a string-valued object: `undefined` and the
empty string are falsy. -/
def truthyLookup (m : List (String × String)) (k : String) : Bool :=
  match jsLookup m k with
  | some v => v != ""
  | none => false

/-- JS object spread `{...a, ...b}`: keys of `a` in order with values
overridden by `b` where present, then keys of `b` not in `a`, in order. -/
def spread (a b : List (String × String)) : List (String × String) :=
  a.map (fun p => (p.1, ((jsLookup b p.1).getD p.2)))
    ++ b.filter (fun p => (jsLookup a p.1).isNone)

/-- `Object.keys`. -/
def keys (m : List (String × String)) : List String :=
  m.map (·.1)

/-- JS `Set.prototype.add`: append unless already present. -/
def setAdd (s : List String) (x : String) : List String :=
  if x ∈ s then s else s ++ [x]

/-- `new Set(list)`: deduplicate, keeping first occurrences in order. -/
def setOfList (l : List String) : List String :=
  l.foldl setAdd []

/-- JS `Map.prototype.set`-style update of an association list: update the
value at `k` in place via `f` if present (first occurrence), else append
`(k, f d)`. -/
def updAssoc {β : Type} (k : String) (f : β → β) (d : β) :
    List (String × β) → List (String × β)
  | [] => [(k, f d)]
  | (k', v) :: rest =>
    if k' == k then (k', f v) :: rest else (k', v) :: updAssoc k f d rest

/-- Generic association-list lookup (JS `Map.prototype.get`). -/
def mapGet {β : Type} (m : List (String × β)) (k : String) : Option β :=
  (m.find? (fun p => p.1 == k)).map (·.2)

/-! ## Import extractor (`src/parser.ts`, `Parser.parse`)

The TypeScript compiler API is an external capability; we embed the syntax
tree shapes that `Parser.parse`'s visitor inspects.  A call argument is
either a string literal (`ts.isStringLiteral` or a no-substitution template
literal) or a non-literal expression, for which the visitor only reads its
source text (`getText`) and its 0-based start line
(`getLineAndCharacterOfPosition(...).line`); a non-literal argument may
itself contain further nodes (its children, reached by `forEachChild`). -/

/-- The named bindings of an import clause: `{a, type b, ...}` (each element
carrying its own `isTypeOnly` flag) or a namespace import `* as ns`. -/
inductive NamedBindings where
  | named (elements : List Bool)
  | namespaceImport
  deriving DecidableEq

/-- An import clause: the clause-level `isTypeOnly` flag (`import type ...`),
whether a default binding (`clause.name`) is present, and the optional named
bindings. -/
structure ImportClause where
  isTypeOnly : Bool
  hasDefaultName : Bool
  namedBindings : Option NamedBindings
  deriving DecidableEq

mutual
/-- The syntax-tree shapes `Parser.parse`'s visitor distinguishes. -/
inductive Node where
  /-- `import ... from 'module'` (the specifier is a string literal). -/
  | importDecl (module : String) (clause : Option ImportClause)
  /-- `export ... from 'module'` / `export {x}` (no specifier). -/
  | exportDecl (module : Option String)
  /-- A call whose callee is the `import` keyword. -/
  | dynImport (args : List Arg)
  /-- A call whose callee is the identifier `require`. -/
  | requireCall (args : List Arg)
  /-- Any other node; the visitor just recurses into its children. -/
  | other (children : List Node)
/-- A call argument. -/
inductive Arg where
  /-- A string literal (or no-substitution template literal). -/
  | lit (text : String)
  /-- A non-literal expression with its source text, 0-based start line and
  child nodes. -/
  | expr (text : String) (line : Nat) (children : List Node)
end

/-- A dynamic candidate: the argument's source text and its recorded line. -/
structure DynCand where
  expression : String
  line : Nat
  deriving DecidableEq

/-- The visitor's accumulated state: the `valueImports` and `typeOnlyImports`
sets (insertion order) and the `dynamicCandidates` list. -/
structure PState where
  valueImports : List String
  typeOnlyImports : List String
  dynamicCandidates : List DynCand
  deriving DecidableEq

/-- `recordImport` in `Parser.parse`: skip an empty module name, otherwise
add to the type-only or value set. -/
def recordImport (st : PState) (moduleName : String) (isTypeOnly : Bool) : PState :=
  if moduleName == "" then st
  else if isTypeOnly then
    { st with typeOnlyImports := setAdd st.typeOnlyImports moduleName }
  else
    { st with valueImports := setAdd st.valueImports moduleName }

/-- The import-declaration classification in `Parser.parse` (lines 37–64):
`true` means the declaration is recorded as type-only. -/
def classifyImportClause (clause : Option ImportClause) : Bool :=
  match clause with
  | none => false
  | some c =>
    if c.isTypeOnly then true
    else
      match c.namedBindings with
      | some (.named elements) =>
        let allTypeOnly := decide (elements.length > 0) && elements.all (fun el => el)
        if c.hasDefaultName || !allTypeOnly then false else true
      | _ => false

/-- Push a dynamic candidate: the source text of the argument and its
1-based line (`line + 1` in the source). -/
def pushCand (st : PState) (text : String) (line : Nat) : PState :=
  { st with dynamicCandidates := st.dynamicCandidates ++ [⟨text, line + 1⟩] }

mutual
/-- The `visit` function of `Parser.parse`.  Import declarations, export
declarations with a specifier and dynamic imports `return` after handling
(their children are not visited); a `require` call falls through to
`forEachChild` over its arguments; other nodes only recurse. -/
def visitNode (st : PState) (n : Node) : PState :=
  match n with
  | .importDecl module clause =>
      recordImport st module (classifyImportClause clause)
  | .exportDecl (some module) =>
      recordImport st module false
  | .exportDecl none => st
  | .dynImport args =>
      match args with
      | .lit s :: _ => recordImport st s false
      | .expr text line _ :: _ => pushCand st text line
      | [] => st
  | .requireCall args =>
      let st' :=
        match args with
        | [.lit s] => recordImport st s false
        | [.expr text line _] => pushCand st text line
        | _ => st
      visitArgs st' args
  | .other children => visitList st children
/-- `forEachChild` over a call's argument list: a string literal has no
relevant children; a non-literal expression's children are visited. -/
def visitArgs (st : PState) (args : List Arg) : PState :=
  match args with
  | [] => st
  | .lit _ :: rest => visitArgs st rest
  | .expr _ _ cs :: rest => visitArgs (visitList st cs) rest
/-- Visit a list of sibling nodes in order. -/
def visitList (st : PState) (ns : List Node) : PState :=
  match ns with
  | [] => st
  | n :: rest => visitList (visitNode st n) rest
end

/-- The per-file result of `Parser.parse`. -/
structure ParseResult where
  valueImports : List String
  typeOnlyImports : List String
  dynamicCandidates : List DynCand
  deriving DecidableEq

/-- `Parser.parse` on an already-parsed source file (a list of top-level
nodes): run the visitor from the empty state and return the three results. -/
def parseAST (nodes : List Node) : ParseResult :=
  let st := visitList ⟨[], [], []⟩ nodes
  ⟨st.valueImports, st.typeOnlyImports, st.dynamicCandidates⟩

/-! ## Workspace graph builder (`src/monorepo.ts`) -/

/-- The `PackageInfo` record as the analyzers use it.  The interface in
`monorepo.ts` declares `name`, `location` and the `dependencies`,
`devDependencies` and `peerDependencies` maps; the analyzers additionally
read `pkg.optionalDependencies`, which at run time is `undefined` on every
package built by `MonorepoManager.getPackages` and is guarded everywhere by
`|| {}` / spread — we carry it as an explicit fourth map so that both the
loader's omission and the analyzers' reads are expressible. -/
structure PackageInfo where
  name : String
  location : String
  dependencies : List (String × String)
  devDependencies : List (String × String)
  peerDependencies : List (String × String)
  optionalDependencies : List (String × String)
  deriving DecidableEq

/-- The dependency-relevant fields of a raw `package.json`, as parsed JSON:
an optional `name` and the four dependency maps (each `json.xxx || {}` in the
source turns an absent map into the empty one, which we pre-apply). -/
structure RawManifest where
  name : Option String
  dependencies : List (String × String)
  devDependencies : List (String × String)
  peerDependencies : List (String × String)
  optionalDependencies : List (String × String)
  deriving DecidableEq

/-- `path.basename`: the last path segment (POSIX behaviour). -/
def baseName (p : String) : String :=
  (jsSplit '/' p).getLastD ""

/-- The manifest-to-`PackageInfo` step of `MonorepoManager.getPackages`
(`monorepo.ts` lines 44–50): the constructed record copies `name` (with the
directory base name as fallback for a falsy `name`), `location`, and the
`dependencies`, `devDependencies` and `peerDependencies` maps.
`optionalDependencies` is **not** copied — the built record leaves it
`undefined`, embedded as the empty map. -/
def loadPackage (pkgDir : String) (json : RawManifest) : PackageInfo :=
  { name :=
      match json.name with
      | some n => if n == "" then baseName pkgDir else n
      | none => baseName pkgDir
    location := pkgDir
    dependencies := json.dependencies
    devDependencies := json.devDependencies
    peerDependencies := json.peerDependencies
    optionalDependencies := [] }

/-! ## Per-package analysis (`src/analyzer.ts`, `Analyzer.analyze`) -/

/-- A dynamic candidate attributed to its file, as in `AnalysisResult`. -/
structure FileDynCand where
  file : String
  line : Nat
  expression : String
  deriving DecidableEq

/-- Which manifest map a dependency is declared in / should move to. -/
inductive DepField where
  | dependencies
  | devDependencies
  deriving DecidableEq

/-- A `wrongType` entry. -/
structure WrongTypeEntry where
  dependency : String
  expected : DepField
  actual : DepField
  deriving DecidableEq

/-- One scanned file: its path, the scanner's dev/prod classification, and
the parse result delivered by `Parser.parse`. -/
structure FileScan where
  file : String
  isDev : Bool
  parsed : ParseResult
  deriving DecidableEq

/-- The result of `Analyzer.analyze`. -/
structure AnalysisResult where
  package : PackageInfo
  unused : List String
  missing : List String
  wrongType : List WrongTypeEntry
  dynamicCandidates : List FileDynCand
  prodImports : List String
  devImports : List String
  deriving DecidableEq

/-- `Analyzer.normalizeImportSpecifier`: strip a leading `node:`. -/
def normalizeImportSpecifier (importPath : String) : String :=
  if jsStartsWith importPath "node:" then
    ⟨importPath.data.drop ("node:".data.length)⟩
  else importPath

/-- `Analyzer.isRuntimeBuiltinImportSpecifier`: `bun` and `bun:`-prefixed
specifiers are runtime built-ins. -/
def isRuntimeBuiltinImportSpecifier (importPath : String) : Bool :=
  importPath == "bun" || jsStartsWith importPath "bun:"

/-- `path.isAbsolute` (POSIX behaviour). -/
def isAbsolutePath (p : String) : Bool :=
  jsStartsWith p "/"

/-- `Analyzer.getPackageName`: a scoped specifier maps to its first two
`/`-separated segments joined, an unscoped one to its first segment; a
scoped specifier without a second segment falls through to `return null`. -/
def getPackageName (importPath : String) : Option String :=
  if jsStartsWith importPath "@" then
    match jsSplit '/' importPath with
    | p0 :: p1 :: _ => some (p0 ++ "/" ++ p1)
    | _ => none
  else
    match jsSplit '/' importPath with
    | p0 :: _ => some p0
    | [] => none

/-- The two import-name sets accumulated by the reduction loop. -/
structure ImportSets where
  prodImports : List String
  devImports : List String
  dynamicCandidates : List FileDynCand
  deriving DecidableEq

/-- One iteration of the value-import loop in `Analyzer.analyze`: filter
relative, absolute and runtime-builtin specifiers, strip `node:`, extract the
package name, drop falsy names and platform built-ins, then add to the dev or
prod set according to the file's classification. -/
def valueImportStep (builtins : List String) (isDev : Bool)
    (st : ImportSets) (imp : String) : ImportSets :=
  if jsStartsWith imp "." then st
  else if isAbsolutePath imp then st
  else if isRuntimeBuiltinImportSpecifier imp then st
  else
    match getPackageName (normalizeImportSpecifier imp) with
    | some packageName =>
      if packageName != "" && !(builtins.contains packageName) then
        if isDev then { st with devImports := setAdd st.devImports packageName }
        else { st with prodImports := setAdd st.prodImports packageName }
      else st
    | none => st

/-- One iteration of the type-only-import loop: same filtering, but the name
goes to `devImports` unless it is already in `prodImports`. -/
def typeImportStep (builtins : List String)
    (st : ImportSets) (imp : String) : ImportSets :=
  if jsStartsWith imp "." then st
  else if isAbsolutePath imp then st
  else if isRuntimeBuiltinImportSpecifier imp then st
  else
    match getPackageName (normalizeImportSpecifier imp) with
    | some packageName =>
      if packageName != "" && !(builtins.contains packageName) then
        if packageName ∈ st.prodImports then st
        else { st with devImports := setAdd st.devImports packageName }
      else st
    | none => st

/-- The per-file body of the scan loop in `Analyzer.analyze`: append the
file's dynamic candidates, then fold the value imports, then the type-only
imports. -/
def processFile (builtins : List String) (st : ImportSets) (fs : FileScan) :
    ImportSets :=
  let st0 := { st with dynamicCandidates := st.dynamicCandidates
    ++ fs.parsed.dynamicCandidates.map (fun c => ⟨fs.file, c.line, c.expression⟩) }
  let st1 := fs.parsed.valueImports.foldl (valueImportStep builtins fs.isDev) st0
  fs.parsed.typeOnlyImports.foldl (typeImportStep builtins) st1

/-- The union-with-override of all four dependency maps built in
`Analyzer.analyze`: `{ ...deps, ...devDeps, ...peerDeps, ...optionalDeps }`. -/
def allDepsOf (pkg : PackageInfo) : List (String × String) :=
  spread (spread (spread pkg.dependencies pkg.devDependencies)
    pkg.peerDependencies) pkg.optionalDependencies

/-- The import-set accumulation of `Analyzer.analyze`'s scan loop. -/
def importState (builtins : List String) (scanResults : List FileScan) :
    ImportSets :=
  scanResults.foldl (processFile builtins) ⟨[], [], []⟩

/-- The body of the dev-declared `wrongType` loop: a dev-declared dependency
also in `prodImports` should be a runtime dependency, unless it is an
`@types/` package or has a truthy `peerDependencies` entry. -/
def wrongTypeDevEntry (st : ImportSets) (peerDeps : List (String × String))
    (dep : String) : Option WrongTypeEntry :=
  if st.prodImports.contains dep
      && !(jsStartsWith dep "@types/") && !(truthyLookup peerDeps dep) then
    some ⟨dep, .dependencies, .devDependencies⟩
  else none

/-- The body of the runtime-declared `wrongType` loop: a runtime-declared
dependency found only in `devImports` should be a dev dependency, with the
same exemptions. -/
def wrongTypeProdEntry (st : ImportSets) (peerDeps : List (String × String))
    (dep : String) : Option WrongTypeEntry :=
  if st.devImports.contains dep && !(st.prodImports.contains dep)
      && !(jsStartsWith dep "@types/") && !(truthyLookup peerDeps dep) then
    some ⟨dep, .devDependencies, .dependencies⟩
  else none

/-- `Analyzer.analyze`, with the scanner and parser results supplied as data
(`scanResults` pairs each file with its parse result) and the platform
built-in module table injected as `builtins`. -/
def analyze (builtins : List String) (pkg : PackageInfo)
    (scanResults : List FileScan) (ignoreDependencies : List String) :
    AnalysisResult :=
  let st := importState builtins scanResults
  let deps := pkg.dependencies
  let devDeps := pkg.devDependencies
  let peerDeps := pkg.peerDependencies
  let allDeps := allDepsOf pkg
  let unused := (keys allDeps).filter (fun dep =>
    !(jsStartsWith dep "@types/") && !(ignoreDependencies.contains dep)
      && !(st.prodImports.contains dep) && !(st.devImports.contains dep))
  let allImports := setOfList (st.prodImports ++ st.devImports)
  let missing := allImports.filter (fun imp =>
    !(ignoreDependencies.contains imp) && !(truthyLookup allDeps imp))
  let wrongType :=
    (keys devDeps).filterMap (wrongTypeDevEntry st peerDeps)
      ++ (keys deps).filterMap (wrongTypeProdEntry st peerDeps)
  { package := pkg
    unused := unused
    missing := missing
    wrongType := wrongType
    dynamicCandidates := st.dynamicCandidates
    prodImports := st.prodImports
    devImports := st.devImports }

/-- The declared-dependency union as a set of names: every name declared in
any of the package's four dependency maps. -/
def declaredNames (pkg : PackageInfo) : List String :=
  keys pkg.dependencies ++ keys pkg.devDependencies
    ++ keys pkg.peerDependencies ++ keys pkg.optionalDependencies

/-! ## Version consistency (`src/consistency.ts`, `ConsistencyChecker.check`) -/

/-- A version-mismatch report: the dependency and every (range, packages)
pair, in insertion order. -/
structure MismatchResult where
  dependency : String
  versions : List (String × List String)
  deriving DecidableEq

/-- Record one `(dep, version)` occurrence from package `pkgName` into the
nested dependency map, mirroring the `Map`-building statements of
`ConsistencyChecker.check`. -/
def addOccurrence (m : List (String × List (String × List String)))
    (dep version pkgName : String) :
    List (String × List (String × List String)) :=
  updAssoc dep (fun vm => updAssoc version (fun ps => ps ++ [pkgName]) [] vm) [] m

/-- The per-package `{...dependencies, ...devDependencies,
...peerDependencies}` union iterated by `ConsistencyChecker.check`. -/
def consistencyDeps (pkg : PackageInfo) : List (String × String) :=
  spread (spread pkg.dependencies pkg.devDependencies) pkg.peerDependencies

/-- One entry of the inner loop of `ConsistencyChecker.check`: skip
`workspace:`/`file:` ranges, otherwise record the occurrence. -/
def consStep (pkgName : String) (m : List (String × List (String × List String)))
    (entry : String × String) : List (String × List (String × List String)) :=
  if jsStartsWith entry.2 "workspace:" || jsStartsWith entry.2 "file:" then m
  else addOccurrence m entry.1 entry.2 pkgName

/-- The dependency → range → packages map built by `ConsistencyChecker.check`. -/
def buildDepMap (packages : List PackageInfo) :
    List (String × List (String × List String)) :=
  packages.foldl (fun m pkg => (consistencyDeps pkg).foldl (consStep pkg.name) m) []

/-- `ConsistencyChecker.check`: build the nested map over all packages, then
report every dependency with more than one distinct range, in first-seen
dependency order. -/
def consistencyCheck (packages : List PackageInfo) : List MismatchResult :=
  ((buildDepMap packages).filter (fun e => e.2.length > 1)).map (fun e => ⟨e.1, e.2⟩)

/-! ## Internal reference checks (`src/internal-checker.ts`) -/

/-- The kind of an internal issue. -/
inductive InternalIssueType where
  | notWorkspace
  | unlistedInternal
  | invalidVersion
  deriving DecidableEq

/-- An `InternalIssue` record. -/
structure InternalIssue where
  packageName : String
  dependency : String
  type : InternalIssueType
  detail : String
  deriving DecidableEq

/-- The four-map union `InternalChecker.check` builds per package. -/
def internalAllDeps (pkg : PackageInfo) : List (String × String) :=
  spread (spread (spread pkg.dependencies pkg.devDependencies)
    pkg.peerDependencies) pkg.optionalDependencies

/-- `InternalChecker.check`: flag (1) declared dependencies naming a
workspace package with a non-`workspace:`/`file:` range, and (2) workspace
package names imported (per `usedImports`) but with a falsy entry in the
declared union, excluding self-reference. -/
def internalCheck (packages : List PackageInfo)
    (usedImports : List (String × List String)) : List InternalIssue :=
  let workspacePackageNames := packages.map (·.name)
  packages.flatMap (fun pkg =>
    let allDeps := internalAllDeps pkg
    let check1 := allDeps.filterMap (fun entry =>
      if workspacePackageNames.contains entry.1 then
        if !(jsStartsWith entry.2 "workspace:") && !(jsStartsWith entry.2 "file:") then
          some ⟨pkg.name, entry.1, .notWorkspace,
            "Should use \"workspace:*\" instead of \"" ++ entry.2 ++ "\""⟩
        else none
      else none)
    let check2 :=
      match mapGet usedImports pkg.name with
      | none => []
      | some importsForPkg => importsForPkg.filterMap (fun imp =>
          if workspacePackageNames.contains imp && imp != pkg.name then
            if !(truthyLookup allDeps imp) then
              some ⟨pkg.name, imp, .unlistedInternal,
                "Internal package is imported but not listed in dependencies"⟩
            else none
          else none)
    check1 ++ check2)

/-! ## Peer dependency checks (`src/config.ts`, `PeerChecker`) -/

/-- The kind of a peer issue. -/
inductive PeerIssueType where
  | missingPeer
  | incompatiblePeer
  | installedMissingPeer
  | installedIncompatiblePeer
  deriving DecidableEq

/-- A `PeerIssue` record. -/
structure PeerIssue where
  packageName : String
  dependency : String
  peerDep : String
  type : PeerIssueType
  detail : String
  deriving DecidableEq

/-- `PeerChecker.cleanVersion` step 1: strip the leading run of comparator
characters (the regex `/^[\^~>=<]+/`). -/
def dropLeadingComparators (s : String) : String :=
  ⟨s.data.dropWhile (fun c => c = '^' || c = '~' || c = '>' || c = '=' || c = '<')⟩

/-- Greedy match of `\d+\.\d+\.\d+` at the start of a character list,
returning the matched characters. -/
def matchSemverAt (l : List Char) : Option (List Char) :=
  let d1 := l.takeWhile Char.isDigit
  let r1 := l.dropWhile Char.isDigit
  if d1 = [] then none
  else
    match r1 with
    | '.' :: r2 =>
      let d2 := r2.takeWhile Char.isDigit
      let r3 := r2.dropWhile Char.isDigit
      if d2 = [] then none
      else
        match r3 with
        | '.' :: r4 =>
          let d3 := r4.takeWhile Char.isDigit
          if d3 = [] then none
          else some (d1 ++ '.' :: d2 ++ '.' :: d3)
        | _ => none
    | _ => none

/-- The first match of `/\d+\.\d+\.\d+/` anywhere in the list (the regex
engine tries each start position left to right; for this pattern greedy
matching at a position needs no backtracking). -/
def findSemver : List Char → Option (List Char)
  | [] => none
  | c :: cs =>
    match matchSemverAt (c :: cs) with
    | some v => some v
    | none => findSemver cs

/-- `PeerChecker.cleanVersion`: `workspace:`/`file:` ranges yield `null`;
otherwise strip leading comparators and extract the first `M.m.p`-shaped
token, or `null` when there is none. -/
def cleanVersion (version : String) : Option String :=
  if jsStartsWith version "workspace:" || jsStartsWith version "file:" then none
  else
    let cleaned := dropLeadingComparators version
    (findSemver cleaned.data).map List.asString

/-- Decimal value of a digit string. -/
def digitsToNat (l : List Char) : Nat :=
  l.foldl (fun n c => n * 10 + (c.toNat - '0'.toNat)) 0

/-- Parse an exact `M.m.p` version string. -/
def parseVer (s : String) : Option (Nat × Nat × Nat) :=
  match jsSplit '.' s with
  | [a, b, c] =>
    if a ≠ "" && b ≠ "" && c ≠ ""
        && a.data.all Char.isDigit && b.data.all Char.isDigit
        && c.data.all Char.isDigit then
      some (digitsToNat a.data, digitsToNat b.data, digitsToNat c.data)
    else none
  | _ => none

/-- Caret-range satisfaction: `^a.b.c` admits versions at least `a.b.c`
that do not change the leftmost non-zero component. -/
def caretSat (lo v : Nat × Nat × Nat) : Bool :=
  let (a, bc) := lo
  let (b, c) := bc
  let (x, yz) := v
  let (y, z) := yz
  let geLo := x > a || (x = a && (y > b || (y = b && z ≥ c)))
  let upper :=
    if a > 0 then x = a
    else if b > 0 then x = 0 && y = b
    else x = 0 && y = 0 && z = c
  geLo && upper

/-- Modelled from the spec: the external `semver.satisfies` capability
(`config.ts` calls the npm `semver` package, which is not part of this
repository), on the fragment of ranges the analysis exercises — plain
`M.m.p` ranges (exact match) and caret ranges `^M.m.p`.  `none` models a
range the library cannot parse; per the spec's normalization rule the
caller treats that as vacuously satisfied.  The version argument is always
the `M.m.p` token produced by `cleanVersion`. -/
def semverSatisfies (version range : String) : Option Bool :=
  match parseVer version with
  | none => some false
  | some v =>
    if jsStartsWith range "^" then
      match parseVer ⟨range.data.drop 1⟩ with
      | some lo => some (caretSat lo v)
      | none => none
    else
      match parseVer range with
      | some lo => some (decide (v = lo))
      | none => none

/-- `PeerChecker.satisfies`: delegate to the semver capability; a range it
cannot parse is assumed compatible (the `catch` branch). -/
def satisfies (version range : String) : Bool :=
  match semverSatisfies version range with
  | some b => b
  | none => true

/-- The root-provided map of `PeerChecker.check`: root `dependencies` first,
then root `devDependencies` for names not already present. -/
def availableDepsOf : Option PackageInfo → List (String × String)
  | some root =>
    root.dependencies
      ++ root.devDependencies.filter (fun p => (jsLookup root.dependencies p.1).isNone)
  | none => []

/-- The provider lookup of `PeerChecker.check`:
`allDeps[peerName] || availableDeps.get(peerName)` — a falsy (absent or
empty) local entry falls through to the root-provided map.  The result is
the JS value of that expression (`none` = `undefined`). -/
def providedVersionFor (allDeps availableDeps : List (String × String))
    (peerName : String) : Option String :=
  match jsLookup allDeps peerName with
  | some v => if v != "" then some v else jsLookup availableDeps peerName
  | none => jsLookup availableDeps peerName

/-- The body of the peer loop in `PeerChecker.check` for one
`(peerName, peerRange)` entry of a package's `peerDependencies`. -/
def peerEntryIssue (pkgName : String) (allDeps availableDeps : List (String × String))
    (entry : String × String) : Option PeerIssue :=
  let peerName := entry.1
  let peerRange := entry.2
  if jsStartsWith peerRange "workspace:" || jsStartsWith peerRange "file:" then none
  else
    match providedVersionFor allDeps availableDeps peerName with
    | none =>
      some ⟨pkgName, pkgName, peerName, .missingPeer,
        "Peer dependency " ++ peerName ++ "@" ++ peerRange ++ " is not installed"⟩
    | some providedVersion =>
      if providedVersion == "" then
        some ⟨pkgName, pkgName, peerName, .missingPeer,
          "Peer dependency " ++ peerName ++ "@" ++ peerRange ++ " is not installed"⟩
      else
        match cleanVersion providedVersion with
        | some cleanProvidedVersion =>
          if !(satisfies cleanProvidedVersion peerRange) then
            some ⟨pkgName, pkgName, peerName, .incompatiblePeer,
              "Peer requires " ++ peerName ++ "@" ++ peerRange
                ++ " but found " ++ providedVersion⟩
          else none
        | none => none

/-- `PeerChecker.check` (declared-level peer validation). -/
def peerCheck (packages : List PackageInfo) (rootPkg : Option PackageInfo) :
    List PeerIssue :=
  let availableDeps := availableDepsOf rootPkg
  packages.flatMap (fun pkg =>
    let allDeps := spread pkg.dependencies pkg.devDependencies
    pkg.peerDependencies.filterMap (peerEntryIssue pkg.name allDeps availableDeps))

/-! ## Installed peer checks (`src/config.ts`, `PeerChecker.checkInstalledPeers`)

The filesystem, the host module-resolution algorithm and the wall clock are
external capabilities, embedded as an explicit environment: `resolvePath`
models `pkgRequire.resolve(depName + "/package.json")` (`none` = resolution
throws), `readManifest` models `fs.readFileSync` + `JSON.parse` at a resolved
path (`none` = reading or parsing throws), and `elapsed i` models the value
of `Date.now() - startedAt` at the `i`-th evaluation of a bound check.  The
state records every disk read performed, in order. -/

/-- An installed dependency's manifest, as far as the check reads it. -/
structure InstManifest where
  peerDependencies : List (String × String)
  deriving DecidableEq

/-- The external environment for the installed-peer traversal. -/
structure InstEnv where
  resolvePath : String → String → Option String
  readManifest : String → Option InstManifest
  elapsed : Nat → Nat

/-- `maxResolvedManifests` in `checkInstalledPeers`. -/
def maxResolvedManifests : Nat := 2000

/-- `timeoutMs` in `checkInstalledPeers`. -/
def timeoutMs : Nat := 8000

/-- The traversal state: the index of the next bound check (each check reads
`Date.now()` once), the run-wide count of resolved manifests, the manifest
cache keyed by resolved path, the log of disk reads, and the issues. -/
structure InstState where
  checkIdx : Nat
  resolvedCount : Nat
  cache : List (String × InstManifest)
  reads : List String
  issues : List PeerIssue
  deriving DecidableEq

/-- The bound check evaluated before each resolution step:
`Date.now() - startedAt > timeoutMs || resolvedCount >= maxResolvedManifests`. -/
def tripped (env : InstEnv) (st : InstState) : Bool :=
  env.elapsed st.checkIdx > timeoutMs || st.resolvedCount ≥ maxResolvedManifests

/-- `PeerChecker.resolveInstalledManifest`: resolve the dependency's manifest
path; on a cache hit return the cached manifest without touching the disk;
otherwise read (logging the read) and cache the parsed manifest, or return
`null` when reading/parsing throws (nothing is cached then). -/
def resolveInstalledManifest (env : InstEnv) (st : InstState)
    (pkgLocation depName : String) : Option InstManifest × InstState :=
  match env.resolvePath pkgLocation depName with
  | none => (none, st)
  | some resolvedPath =>
    match mapGet st.cache resolvedPath with
    | some cached => (some cached, st)
    | none =>
      match env.readManifest resolvedPath with
      | some parsed =>
        (some parsed,
          { st with cache := st.cache ++ [(resolvedPath, parsed)]
                    reads := st.reads ++ [resolvedPath] })
      | none => (none, { st with reads := st.reads ++ [resolvedPath] })

/-- The provider lookup of the installed-peer loop:
`localProvided[peerName] ?? rootProvided[peerName]` (nullish coalescing — an
empty-string local entry does **not** fall through). -/
def installedProvidedFor (localProvided rootProvided : List (String × String))
    (peerName : String) : Option String :=
  match jsLookup localProvided peerName with
  | some v => some v
  | none => jsLookup rootProvided peerName

/-- The issues contributed by one resolved manifest's `peerDependencies`,
attributed to the intermediate dependency `depName` of package `pkgName`. -/
def installedPeerIssues (pkgName depName : String)
    (localProvided rootProvided : List (String × String))
    (manifest : InstManifest) : List PeerIssue :=
  manifest.peerDependencies.filterMap (fun entry =>
    let peerName := entry.1
    let peerRange := entry.2
    if jsStartsWith peerRange "workspace:" || jsStartsWith peerRange "file:" then
      none
    else
      match installedProvidedFor localProvided rootProvided peerName with
      | none =>
        some ⟨pkgName, depName, peerName, .installedMissingPeer,
          "Installed dependency " ++ depName ++ " requires peer " ++ peerName
            ++ "@" ++ peerRange ++ ", but it is not installed in workspace/root"⟩
      | some providedVersion =>
        if providedVersion == "" then
          some ⟨pkgName, depName, peerName, .installedMissingPeer,
            "Installed dependency " ++ depName ++ " requires peer " ++ peerName
              ++ "@" ++ peerRange ++ ", but it is not installed in workspace/root"⟩
        else
          match cleanVersion providedVersion with
          | some cleanProvidedVersion =>
            if !(satisfies cleanProvidedVersion peerRange) then
              some ⟨pkgName, depName, peerName, .installedIncompatiblePeer,
                "Installed dependency " ++ depName ++ " requires " ++ peerName
                  ++ "@" ++ peerRange ++ ", but found " ++ providedVersion⟩
            else none
          | none => none)

/-- `{...deps, ...devDeps, ...peerDeps, ...optionalDeps}` — the
`localProvided`/`rootProvided` maps of the installed-peer loop. -/
def providedMapOf (pkg : PackageInfo) : List (String × String) :=
  spread (spread (spread pkg.dependencies pkg.devDependencies)
    pkg.peerDependencies) pkg.optionalDependencies

/-- `{...deps, ...devDeps, ...optionalDeps}` — the `declaredDeps` the loop
iterates over. -/
def declaredDepsOf (pkg : PackageInfo) : List (String × String) :=
  spread (spread pkg.dependencies pkg.devDependencies) pkg.optionalDependencies

/-- The `rootProvided` map: the root package's four-map union, or empty
when there is no root. -/
def rootProvidedOf : Option PackageInfo → List (String × String)
  | some root => providedMapOf root
  | none => []

/-- The inner dependency loop of `checkInstalledPeers`: before each step the
bound check runs (consuming one clock reading); tripping it breaks out,
returning the issues collected so far. -/
def runDeps (env : InstEnv) (pkgLocation pkgName : String)
    (localProvided rootProvided : List (String × String))
    (st : InstState) : List (String × String) → InstState
  | [] => st
  | (depName, _) :: rest =>
    let hit := tripped env st
    let st' := { st with checkIdx := st.checkIdx + 1 }
    if hit then st'
    else
      match resolveInstalledManifest env st' pkgLocation depName with
      | (none, st2) => runDeps env pkgLocation pkgName localProvided rootProvided st2 rest
      | (some manifest, st2) =>
        let st3 := { st2 with
          resolvedCount := st2.resolvedCount + 1
          issues := st2.issues
            ++ installedPeerIssues pkgName depName localProvided rootProvided manifest }
        runDeps env pkgLocation pkgName localProvided rootProvided st3 rest

/-- The outer package loop of `checkInstalledPeers`: the bound check also
runs before each package; tripping it breaks out of the whole traversal. -/
def runPkgs (env : InstEnv) (rootPkg : Option PackageInfo)
    (st : InstState) : List PackageInfo → InstState
  | [] => st
  | pkg :: rest =>
    let hit := tripped env st
    let st' := { st with checkIdx := st.checkIdx + 1 }
    if hit then st'
    else
      let st2 := runDeps env pkg.location pkg.name (providedMapOf pkg)
        (rootProvidedOf rootPkg) st' (declaredDepsOf pkg)
      runPkgs env rootPkg st2 rest

/-- The initial traversal state. -/
def instInit : InstState := ⟨0, 0, [], [], []⟩

/-- `PeerChecker.checkInstalledPeers`: run the bounded traversal and return
the issues (the function always returns normally; exceeding a bound
truncates the remaining work). -/
def checkInstalledPeers (env : InstEnv) (packages : List PackageInfo)
    (rootPkg : Option PackageInfo) : List PeerIssue :=
  (runPkgs env rootPkg instInit packages).issues

/-- The uniform-range invariant on the nested dependency map: the version
map for `dep` is empty or the single range `r`. -/
def UniformAt (dep r : String) (m : List (String × List (String × List String))) :
    Prop :=
  ∀ p ∈ m, p.1 = dep → (p.2 = [] ∨ ∃ ps, p.2 = [(r, ps)])

/-! ## Concrete instances used in the claim-level statements -/

/-- A manifest declaring `left-pad` only in `optionalDependencies`. -/
def leafManifest : RawManifest :=
  ⟨some "leaf", [], [], [], [("left-pad", "^1.0.0")]⟩

/-- A package declaring `foo` with the (legal) empty version range. -/
def emptyRangePkg : PackageInfo :=
  ⟨"p", "/ws/p", [("foo", "")], [], [], []⟩

/-- A prod file importing `foo`. -/
def emptyRangeScan : FileScan :=
  ⟨"/ws/p/src/index.ts", false, ⟨["foo"], [], []⟩⟩

/-- Three packages for the consistency scenario: `d1` is `^1.0.0` in `a`,`b`
and `^2.0.0` in `c`; `d2` mismatches between `b` and `c`; `s` is `1.0.0`
everywhere; `w` is a `workspace:` range in `a` and `2.0.0` in `c`. -/
def consPkgA : PackageInfo :=
  ⟨"a", "/ws/a", [("d1", "^1.0.0"), ("s", "1.0.0"), ("w", "workspace:1.0")], [], [], []⟩

/-- Second consistency-scenario package. -/
def consPkgB : PackageInfo :=
  ⟨"b", "/ws/b", [("d1", "^1.0.0"), ("d2", "^3.0.0"), ("s", "1.0.0")], [], [], []⟩

/-- Third consistency-scenario package. -/
def consPkgC : PackageInfo :=
  ⟨"c", "/ws/c", [("d1", "^2.0.0"), ("d2", "^4.0.0"), ("w", "2.0.0")], [], [], []⟩

/-- A package declaring peer `react@^18.0.0` and nothing else. -/
def reactApp : PackageInfo := ⟨"app", "/ws/app", [], [], [("react", "^18.0.0")], []⟩

/-- A root manifest providing `react@^17.0.0`. -/
def react17Root : PackageInfo := ⟨"root", "/ws", [("react", "^17.0.0")], [], [], []⟩

/-- A package declaring peer `foo` at the unparsable range `latest`. -/
def latestPeerPkg : PackageInfo := ⟨"u", "/ws/u", [], [], [("foo", "latest")], []⟩

/-- A root providing `foo@1.2.3`. -/
def fooRoot : PackageInfo := ⟨"root", "/ws", [("foo", "1.2.3")], [], [], []⟩

/-- A package declaring peer `bar@^1.0.0`. -/
def barPeerPkg : PackageInfo := ⟨"v", "/ws/v", [], [], [("bar", "^1.0.0")], []⟩

/-- A root providing `bar` at the unparsable version `beta`. -/
def betaRoot : PackageInfo := ⟨"root", "/ws", [("bar", "beta")], [], [], []⟩

/-- A package dev-declaring `x` and peer-declaring it with an empty range. -/
def emptyPeerRangePkg : PackageInfo :=
  ⟨"q", "/ws/q", [], [("x", "^1.0.0")], [("x", "")], []⟩

/-- A prod file importing `x`. -/
def emptyPeerRangeScan : FileScan := ⟨"/ws/q/src/index.ts", false, ⟨["x"], [], []⟩⟩

/-- Workspace package `a` depending on workspace package `b` at a fixed
version. -/
def wsPkgA : PackageInfo := ⟨"a", "/ws/a", [("b", "1.2.3")], [], [], []⟩

/-- Workspace package `a` depending on `b` via the workspace protocol. -/
def wsPkgA2 : PackageInfo := ⟨"a", "/ws/a", [("b", "workspace:*")], [], [], []⟩

/-- Workspace package `b`. -/
def wsPkgB : PackageInfo := ⟨"b", "/ws/b", [], [], [], []⟩

/-- An installed-peer environment in which dependency `x` resolves to one
path whose manifest cannot be parsed (`readManifest` throws), with the clock
never past the deadline. -/
def unparsableEnv : InstEnv :=
  ⟨fun _ d => if d = "x" then some "/ws/node_modules/x/package.json" else none,
   fun _ => none,
   fun _ => 0⟩

/-- First package depending on `x`. -/
def instPkg1 : PackageInfo := ⟨"q1", "/ws/q1", [("x", "^1.0.0")], [], [], []⟩

/-- Second package depending on `x`. -/
def instPkg2 : PackageInfo := ⟨"q2", "/ws/q2", [("x", "^1.0.0")], [], [], []⟩

/-- An installed-peer environment in which `x` resolves and its manifest
parses (with no peer requirements). -/
def parseOkEnv : InstEnv :=
  ⟨fun _ d => if d = "x" then some "/ws/node_modules/x/package.json" else none,
   fun _ => some ⟨[]⟩,
   fun _ => 0⟩

/-- An installed-peer environment whose wall clock is already past the
deadline at every bound check. -/
def lateClockEnv : InstEnv :=
  ⟨fun _ _ => none, fun _ => none, fun _ => 9000⟩

/-! ## General lemmas -/

/-! ### Lemmas about the primitives -/

theorem jsLookup_nil (k : String) : jsLookup [] k = none := rfl

theorem jsLookup_append (a b : List (String × String)) (k : String) :
    jsLookup (a ++ b) k = (jsLookup a k).orElse (fun _ => jsLookup b k) := by
  unfold jsLookup
  rw [List.find?_append]
  cases List.find? (fun p => p.1 == k) a <;> simp [Option.orElse]

theorem jsLookup_map_keyFixed (a : List (String × String))
    (f : String × String → String) (k : String) :
    jsLookup (a.map (fun p => (p.1, f p))) k
      = (a.find? (fun p => p.1 == k)).map (fun p => f p) := by
  induction a with
  | nil => rfl
  | cons hd tl ih =>
    by_cases h : hd.1 == k <;> simp [jsLookup, List.find?, h] at ih ⊢ <;>
      simpa [jsLookup] using ih

theorem jsLookup_cons (k' v k : String) (tl : List (String × String)) :
    jsLookup ((k', v) :: tl) k
      = if (k' == k) = true then some v else jsLookup tl k := by
  by_cases h : (k' == k) = true <;> simp [jsLookup, List.find?, h]

theorem jsLookup_filter_none (a b : List (String × String)) (k : String)
    (h : jsLookup a k = none) :
    jsLookup (b.filter (fun p => (jsLookup a p.1).isNone)) k = jsLookup b k := by
  induction b with
  | nil => rfl
  | cons hd tl ih =>
    obtain ⟨k', v⟩ := hd
    rw [List.filter_cons]
    by_cases hfa : ((jsLookup a k').isNone : Bool) = true
    · simp only [hfa, if_true]
      rw [jsLookup_cons, jsLookup_cons, ih]
    · simp only [hfa, if_false, Bool.false_eq_true]
      have hne : (k' == k) ≠ true := by
        intro he
        have hkk : k' = k := by simpa using he
        rw [hkk, h] at hfa
        simp at hfa
      rw [ih, jsLookup_cons, if_neg hne]

theorem jsLookup_filter_some (a b : List (String × String)) (k : String)
    (h : (jsLookup a k).isSome) :
    jsLookup (b.filter (fun p => (jsLookup a p.1).isNone)) k = none := by
  induction b with
  | nil => rfl
  | cons hd tl ih =>
    obtain ⟨k', v⟩ := hd
    rw [List.filter_cons]
    by_cases hfa : ((jsLookup a k').isNone : Bool) = true
    · have hne : (k' == k) ≠ true := by
        intro he
        have hkk : k' = k := by simpa using he
        rw [hkk] at hfa
        cases hv : jsLookup a k <;> rw [hv] at h hfa <;> simp at h hfa
      simp only [hfa, if_true]
      rw [jsLookup_cons, if_neg hne]
      exact ih
    · simp only [hfa, if_false, Bool.false_eq_true]
      exact ih

/-- Lookup through a JS object spread: `b` wins where both have the key. -/
theorem jsLookup_spread (a b : List (String × String)) (k : String) :
    jsLookup (spread a b) k =
      match jsLookup a k with
      | some va => some ((jsLookup b k).getD va)
      | none => jsLookup b k := by
  unfold spread
  rw [jsLookup_append]
  cases ha : jsLookup a k with
  | none =>
    have hmap : jsLookup (a.map (fun p => (p.1, ((jsLookup b p.1).getD p.2)))) k = none := by
      rw [jsLookup_map_keyFixed]
      have : a.find? (fun p => p.1 == k) = none := by
        unfold jsLookup at ha
        cases hf : a.find? (fun p => p.1 == k) <;> simp [hf] at ha ⊢
      simp [this]
    rw [hmap]
    simpa [Option.orElse] using jsLookup_filter_none a b k ha
  | some va =>
    have hmap : jsLookup (a.map (fun p => (p.1, ((jsLookup b p.1).getD p.2)))) k
        = some ((jsLookup b k).getD va) := by
      rw [jsLookup_map_keyFixed]
      unfold jsLookup at ha
      cases hf : a.find? (fun p => p.1 == k) with
      | none => simp [hf] at ha
      | some p =>
        have hp1 : p.1 = k := by
          have := List.find?_some hf
          simpa using this
        have hp2 : p.2 = va := by simp [hf] at ha; exact ha
        simp [hf, hp1, hp2]
    rw [hmap]
    simp [Option.orElse]

/-- A key is found in a spread iff it is found in one of the parts. -/
theorem jsLookup_spread_isSome (a b : List (String × String)) (k : String) :
    (jsLookup (spread a b) k).isSome
      = ((jsLookup a k).isSome || (jsLookup b k).isSome) := by
  rw [jsLookup_spread]
  cases ha : jsLookup a k <;> cases hb : jsLookup b k <;> simp

/-- A membership in `keys` yields a successful lookup. -/
theorem jsLookup_isSome_of_mem_keys (m : List (String × String)) (k : String)
    (h : k ∈ keys m) : (jsLookup m k).isSome := by
  unfold keys at h
  obtain ⟨p, hp, hpk⟩ := List.mem_map.mp h
  unfold jsLookup
  have : (m.find? (fun q => q.1 == k)).isSome := by
    rw [List.find?_isSome]
    exact ⟨p, hp, by simp [hpk]⟩
  cases hf : m.find? (fun q => q.1 == k) <;> simp [hf] at this ⊢


theorem jsLookup_mem (m : List (String × String)) (k v : String)
    (h : jsLookup m k = some v) : (k, v) ∈ m := by
  unfold jsLookup at h
  cases hf : m.find? (fun p => p.1 == k) with
  | none => rw [hf] at h; simp at h
  | some p =>
    obtain ⟨p1, p2⟩ := p
    rw [hf] at h
    simp at h
    have hp := List.mem_of_find?_eq_some hf
    have hpk := List.find?_some hf
    have h1 : p1 = k := by simpa using hpk
    rw [← h1, ← h]
    exact hp

theorem mem_of_jsLookup_spread (a b : List (String × String)) (k v : String)
    (h : jsLookup (spread a b) k = some v) : (k, v) ∈ a ∨ (k, v) ∈ b := by
  rw [jsLookup_spread] at h
  cases ha : jsLookup a k with
  | none =>
    rw [ha] at h
    exact Or.inr (jsLookup_mem _ _ _ h)
  | some va =>
    rw [ha] at h
    cases hb : jsLookup b k with
    | none =>
      rw [hb] at h
      simp at h
      exact Or.inl (jsLookup_mem _ _ _ (h ▸ ha))
    | some vb =>
      rw [hb] at h
      simp at h
      exact Or.inr (jsLookup_mem _ _ _ (h ▸ hb))

theorem mem_spread (a b : List (String × String)) (q : String × String)
    (h : q ∈ spread a b) : q ∈ a ∨ q ∈ b := by
  unfold spread at h
  rcases List.mem_append.mp h with h | h
  · obtain ⟨p, hp, hq⟩ := List.mem_map.mp h
    cases hb : jsLookup b p.1 with
    | none =>
      left
      rw [← hq]
      simpa [hb] using hp
    | some vb =>
      right
      rw [← hq]
      simpa [hb] using jsLookup_mem b p.1 vb hb
  · exact Or.inr (List.mem_of_mem_filter h)

theorem mem_setAdd (l : List String) (x y : String) :
    x ∈ setAdd l y ↔ x ∈ l ∨ x = y := by
  unfold setAdd
  split
  · rename_i h
    constructor
    · exact Or.inl
    · rintro (hx | rfl)
      · exact hx
      · exact h
  · simp

theorem mem_foldl_setAdd (l acc : List String) (x : String)
    (h : x ∈ l.foldl setAdd acc) : x ∈ acc ∨ x ∈ l := by
  induction l generalizing acc with
  | nil => exact Or.inl h
  | cons y ys ih =>
    rcases ih (setAdd acc y) h with hx | hx
    · rcases (mem_setAdd acc x y).mp hx with hx' | rfl
      · exact Or.inl hx'
      · exact Or.inr (List.mem_cons_self _ _)
    · exact Or.inr (List.mem_cons_of_mem _ hx)

theorem mem_of_mem_setOfList (l : List String) (x : String)
    (h : x ∈ setOfList l) : x ∈ l := by
  rcases mem_foldl_setAdd l [] x h with hx | hx
  · simp at hx
  · exact hx

theorem isPrefixOf_singleton (c : Char) (l : List Char) :
    ([c].isPrefixOf l = true) ↔ ∃ t, l = c :: t := by
  cases l with
  | nil => simp [List.isPrefixOf]
  | cons x xs =>
    constructor
    · intro h
      have hcx : c = x := by
        have h' : ((c == x) && List.isPrefixOf ([] : List Char) xs) = true := h
        simp [List.isPrefixOf] at h'
        exact h'
      exact ⟨xs, by rw [hcx]⟩
    · rintro ⟨t, ht⟩
      have h1 : x = c := by injection ht
      simp [List.isPrefixOf, h1]

theorem splitCharAux_nosep (sep : Char) (l acc : List Char) (h : sep ∉ l) :
    splitCharAux sep l acc = [acc.reverse ++ l] := by
  induction l generalizing acc with
  | nil => simp [splitCharAux]
  | cons c cs ih =>
    have hc : ¬ c = sep := by
      intro he
      exact h (he ▸ List.mem_cons_self c cs)
    have hcs : sep ∉ cs := fun hm => h (List.mem_cons_of_mem _ hm)
    simp only [splitCharAux, if_neg hc]
    rw [ih _ hcs]
    simp

theorem asString_data (s : String) : s.data.asString = s := rfl

theorem data_asString (l : List Char) : l.asString.data = l := rfl

theorem jsSplit_nosep (sep : Char) (s : String) (h : sep ∉ s.data) :
    jsSplit sep s = [s] := by
  unfold jsSplit
  rw [splitCharAux_nosep sep s.data [] h]
  simp [asString_data]

theorem splitCharAux_head (sep : Char) (l acc : List Char) :
    ∃ rest, splitCharAux sep l acc
      = (acc.reverse ++ l.takeWhile (fun c => !(c == sep))) :: rest := by
  induction l generalizing acc with
  | nil => exact ⟨[], by simp [splitCharAux]⟩
  | cons c cs ih =>
    by_cases hc : c = sep
    · refine ⟨splitCharAux sep cs [], ?_⟩
      have hbeq : (c == sep) = true := by simpa using hc
      simp [splitCharAux, if_pos hc, List.takeWhile_cons, hbeq]
    · obtain ⟨rest, hrest⟩ := ih (c :: acc)
      refine ⟨rest, ?_⟩
      simp only [splitCharAux, if_neg hc, hrest, List.takeWhile_cons]
      have hbeq : (c == sep) = false := by simpa using hc
      simp [hbeq]

theorem jsSplit_head (sep : Char) (s : String) :
    ∃ p0 rest, jsSplit sep s = p0 :: rest
      ∧ p0.data = s.data.takeWhile (fun c => !(c == sep)) := by
  obtain ⟨rest, hrest⟩ := splitCharAux_head sep s.data []
  refine ⟨(s.data.takeWhile (fun c => !(c == sep))).asString, rest.map List.asString, ?_, ?_⟩
  · unfold jsSplit
    rw [hrest]
    simp
  · exact data_asString _

/-- A name declared (with whatever range) in one of the four maps and never
declared with an empty range has a truthy entry in the analyzer's spread. -/
theorem truthyLookup_allDeps_of_declared (pkg : PackageInfo) (d : String)
    (hd : d ∈ declaredNames pkg)
    (hne : ∀ n v, ((n, v) ∈ pkg.dependencies ∨ (n, v) ∈ pkg.devDependencies
        ∨ (n, v) ∈ pkg.peerDependencies ∨ (n, v) ∈ pkg.optionalDependencies) → v ≠ "") :
    truthyLookup (allDepsOf pkg) d = true := by
  have hsome : (jsLookup (allDepsOf pkg) d).isSome := by
    unfold allDepsOf
    rw [jsLookup_spread_isSome, jsLookup_spread_isSome, jsLookup_spread_isSome]
    simp only [declaredNames, List.mem_append] at hd
    rcases hd with ((h | h) | h) | h <;>
      simp [jsLookup_isSome_of_mem_keys _ _ h]
  obtain ⟨v, hv⟩ := Option.isSome_iff_exists.mp hsome
  have hmem : (d, v) ∈ pkg.dependencies ∨ (d, v) ∈ pkg.devDependencies
      ∨ (d, v) ∈ pkg.peerDependencies ∨ (d, v) ∈ pkg.optionalDependencies := by
    unfold allDepsOf at hv
    rcases mem_of_jsLookup_spread _ _ _ _ hv with h3 | h3
    · rcases mem_spread _ _ _ h3 with h2 | h2
      · rcases mem_spread _ _ _ h2 with h1 | h1
        · exact Or.inl h1
        · exact Or.inr (Or.inl h1)
      · exact Or.inr (Or.inr (Or.inl h2))
    · exact Or.inr (Or.inr (Or.inr h3))
  have hv' : v ≠ "" := hne d v hmem
  unfold truthyLookup
  rw [hv]
  simpa using hv'

/-! ## Claim C2 -/

/-- **C2** (code-bug evaluation): `left-pad` is declared in the manifest's
`optionalDependencies` and never imported.  `MonorepoManager.getPackages`
does not copy `optionalDependencies` into the `PackageInfo` it builds
(`monorepo.ts` lines 44–50 and the `PackageInfo` interface omit it), so
`Analyzer.analyze` reports it **not** unused; had the loader preserved the
map, the same analysis would report `["left-pad"]`, as the spec's
four-map declared union requires. -/
theorem optional_only_dependency_silently_dropped :
    ("left-pad" ∈ keys leafManifest.optionalDependencies)
    ∧ (analyze [] (loadPackage "/ws/leaf" leafManifest) [] []).unused = []
    ∧ (analyze [] { loadPackage "/ws/leaf" leafManifest with
          optionalDependencies := leafManifest.optionalDependencies } [] []).unused
        = ["left-pad"] := by
  refine ⟨by decide, by decide, by decide⟩

/-! ## Claim C3 -/

/-- **C3** (counterexample): an import declaration whose clause has no
clause-level type flag, no default binding, and an **empty** named-bindings
list is classified *value-level* by `Parser.parse` (`allTypeOnly` requires
`elements.length > 0`), whereas the claim's "every named binding in it is
individually type-only (including the edge where the clause has an empty
named-bindings list)" predicts type-only. -/
theorem classify_empty_named_bindings_value_level :
    classifyImportClause (some ⟨false, false, some (.named [])⟩) = false := by
  decide

/-- **C3** (amended): for an import clause with named bindings, the
classification is type-only iff the entire clause is marked type-only, or
there is no default binding, the named-bindings list is **non-empty**, and
every named binding is individually type-only; otherwise (in particular for
an empty named-bindings list without clause-level flag) it is value-level. -/
theorem classify_mixed_clause (flag hasDefault : Bool) (elems : List Bool) :
    classifyImportClause (some ⟨flag, hasDefault, some (.named elems)⟩) = true
      ↔ (flag = true
          ∨ (hasDefault = false ∧ elems ≠ [] ∧ elems.all (fun el => el) = true)) := by
  unfold classifyImportClause
  cases flag with
  | true => simp
  | false =>
    cases hasDefault with
    | true => simp
    | false =>
      simp only [if_false, Bool.false_eq_true, false_or, true_and, Bool.false_or]
      constructor
      · intro h
        by_cases hlen : elems.length > 0
        · refine ⟨List.length_pos.mp hlen, ?_⟩
          by_cases hall : elems.all (fun el => el) = true
          · exact hall
          · simp [hlen, hall] at h
        · simp [hlen] at h
      · rintro ⟨hne, hall⟩
        have hlen : elems.length > 0 := List.length_pos.mpr hne
        simp [hlen, hall]

/-! ## Claim C1 -/

/-- **C1** (counterexample): `emptyRangePkg` declares `foo` with the empty
version-range string (legal in a manifest, meaning "any version") and a prod
file imports `foo`.  `Analyzer.analyze` tests declaredness with the truthy
check `!allDeps[imp]`, so `foo` lands in `missing` even though it is in the
declared-dependency union — the claimed disjointness
`missing ∩ declared-dependency-union = ∅` fails. -/
theorem missing_meets_declared_on_empty_range :
    "foo" ∈ (analyze [] emptyRangePkg [emptyRangeScan] []).missing
    ∧ "foo" ∈ declaredNames emptyRangePkg := by
  refine ⟨by decide, by decide⟩

/-- **C1** (amended): for every package, `unused` is disjoint from
`prodImports ∪ devImports` unconditionally, and `missing` is disjoint from
the declared-dependency union provided every declared version range is a
non-empty string (an empty-string range is treated as undeclared by the
code's truthiness check). -/
theorem analyze_unused_missing_disjoint (builtins : List String)
    (pkg : PackageInfo) (scanResults : List FileScan)
    (ignoreDependencies : List String) :
    (∀ d ∈ (analyze builtins pkg scanResults ignoreDependencies).unused,
        d ∉ (analyze builtins pkg scanResults ignoreDependencies).prodImports
        ∧ d ∉ (analyze builtins pkg scanResults ignoreDependencies).devImports)
    ∧ ((pkg.dependencies ++ pkg.devDependencies ++ pkg.peerDependencies
          ++ pkg.optionalDependencies).all (fun p => p.2 != "") = true →
        ∀ d ∈ (analyze builtins pkg scanResults ignoreDependencies).missing,
          d ∉ declaredNames pkg) := by
  constructor
  · intro d hd
    have hd' : d ∈ (keys (allDepsOf pkg)).filter (fun dep =>
        !(jsStartsWith dep "@types/") && !(ignoreDependencies.contains dep)
          && !((scanResults.foldl (processFile builtins)
                (⟨[], [], []⟩ : ImportSets)).prodImports.contains dep)
          && !((scanResults.foldl (processFile builtins)
                (⟨[], [], []⟩ : ImportSets)).devImports.contains dep)) := hd
    obtain ⟨_, hpred⟩ := List.mem_filter.mp hd'
    simp only [Bool.and_eq_true, Bool.not_eq_true'] at hpred
    constructor
    · intro hmem
      have : ((scanResults.foldl (processFile builtins)
          (⟨[], [], []⟩ : ImportSets)).prodImports.contains d) = true := by
        simpa using hmem
      rw [hpred.1.2] at this
      cases this
    · intro hmem
      have : ((scanResults.foldl (processFile builtins)
          (⟨[], [], []⟩ : ImportSets)).devImports.contains d) = true := by
        simpa using hmem
      rw [hpred.2] at this
      cases this
  · intro hne d hd hdn
    have hne' : ∀ n v, ((n, v) ∈ pkg.dependencies ∨ (n, v) ∈ pkg.devDependencies
        ∨ (n, v) ∈ pkg.peerDependencies ∨ (n, v) ∈ pkg.optionalDependencies) →
        v ≠ "" := by
      intro n v hmem
      have hm : (n, v) ∈ pkg.dependencies ++ pkg.devDependencies
          ++ pkg.peerDependencies ++ pkg.optionalDependencies := by
        simp only [List.mem_append]
        tauto
      have := List.all_eq_true.mp hne _ hm
      simpa using this
    have hd' : d ∈ (setOfList
        ((scanResults.foldl (processFile builtins)
            (⟨[], [], []⟩ : ImportSets)).prodImports
          ++ (scanResults.foldl (processFile builtins)
            (⟨[], [], []⟩ : ImportSets)).devImports)).filter (fun imp =>
        !(ignoreDependencies.contains imp)
          && !(truthyLookup (allDepsOf pkg) imp)) := hd
    obtain ⟨_, hpred⟩ := List.mem_filter.mp hd'
    simp only [Bool.and_eq_true, Bool.not_eq_true'] at hpred
    have htrue := truthyLookup_allDeps_of_declared pkg d hdn hne'
    rw [hpred.2] at htrue
    cases htrue

/-- **C1** (witness): the amended disjointness applied to the concrete
empty-range package (unconditional unused half) and to the concrete
consistency-scenario package `consPkgA`, whose ranges are all non-empty
(conditional missing half). -/
theorem analyze_unused_missing_disjoint_witness :
    (∀ d ∈ (analyze [] emptyRangePkg [emptyRangeScan] []).unused,
        d ∉ (analyze [] emptyRangePkg [emptyRangeScan] []).prodImports
        ∧ d ∉ (analyze [] emptyRangePkg [emptyRangeScan] []).devImports)
    ∧ ((consPkgA.dependencies ++ consPkgA.devDependencies
        ++ consPkgA.peerDependencies ++ consPkgA.optionalDependencies).all
          (fun p => p.2 != "") = true)
    ∧ (∀ d ∈ (analyze [] consPkgA [] []).missing, d ∉ declaredNames consPkgA) :=
  ⟨(analyze_unused_missing_disjoint [] emptyRangePkg [emptyRangeScan] []).1,
   by decide,
   (analyze_unused_missing_disjoint [] consPkgA [] []).2 (by decide)⟩

/-! ## Claim C10 -/

/-- `"@".data = ['@']`, `jsStartsWith` unfolded to the single-character
prefix test. -/
theorem jsStartsWith_at_iff (s : String) :
    jsStartsWith s "@" = true ↔ ∃ t, s.data = '@' :: t := by
  unfold jsStartsWith
  exact isPrefixOf_singleton '@' s.data

/-- No import specifier whatsoever resolves (via `getPackageName`) to a
package name that begins with `@` and contains no `/`: scoped extraction
always joins two segments with a `/`, and unscoped extraction returns a
prefix of the specifier, which then cannot begin with `@`. -/
theorem getPackageName_never_scoped_noslash (s : String)
    (h1 : jsStartsWith s "@" = true) (h2 : '/' ∉ s.data) :
    ∀ t, getPackageName t ≠ some s := by
  intro t ht
  unfold getPackageName at ht
  by_cases hts : jsStartsWith t "@" = true
  · rw [if_pos hts] at ht
    cases hsp : jsSplit '/' t with
    | nil => rw [hsp] at ht; cases ht
    | cons p0 rest =>
      cases rest with
      | nil => rw [hsp] at ht; cases ht
      | cons p1 rest2 =>
        rw [hsp] at ht
        simp at ht
        apply h2
        rw [← ht]
        show '/' ∈ (p0 ++ "/" ++ p1).data
        rw [String.data_append, String.data_append]
        simp [show ("/" : String).data = ['/'] from rfl]
  · rw [if_neg hts] at ht
    cases hsp : jsSplit '/' t with
    | nil => rw [hsp] at ht; cases ht
    | cons p0 rest =>
      rw [hsp] at ht
      simp at ht
      obtain ⟨q0, rest', hq, hqdata⟩ := jsSplit_head '/' t
      rw [hsp] at hq
      have hp0 : p0.data = t.data.takeWhile (fun c => !(c == '/')) := by
        cases hq
        exact hqdata
      obtain ⟨s', hs'⟩ := (jsStartsWith_at_iff s).mp h1
      apply hts
      rw [jsStartsWith_at_iff]
      have hts' : t.data.takeWhile (fun c => !(c == '/')) = '@' :: s' := by
        rw [← hp0, ht, hs']
      refine ⟨s' ++ t.data.dropWhile (fun c => !(c == '/')), ?_⟩
      calc t.data
          = t.data.takeWhile (fun c => !(c == '/'))
            ++ t.data.dropWhile (fun c => !(c == '/')) :=
            (List.takeWhile_append_dropWhile ..).symm
        _ = ('@' :: s') ++ t.data.dropWhile (fun c => !(c == '/')) := by rw [hts']
        _ = '@' :: (s' ++ t.data.dropWhile (fun c => !(c == '/'))) := rfl

/-- The value-import step never adds such a name to either set. -/
theorem valueImportStep_scoped_noslash_inv (s : String)
    (h1 : jsStartsWith s "@" = true) (h2 : '/' ∉ s.data)
    (builtins : List String) (isDev : Bool) (st : ImportSets) (imp : String)
    (hinv : s ∉ st.prodImports ∧ s ∉ st.devImports) :
    s ∉ (valueImportStep builtins isDev st imp).prodImports
    ∧ s ∉ (valueImportStep builtins isDev st imp).devImports := by
  unfold valueImportStep
  split
  · exact hinv
  · split
    · exact hinv
    · split
      · exact hinv
      · cases hg : getPackageName (normalizeImportSpecifier imp) with
        | none => simpa [hg] using hinv
        | some n =>
          have hns : n ≠ s :=
            fun he => getPackageName_never_scoped_noslash s h1 h2 _ (he ▸ hg)
          simp only [hg]
          split
          · split
            · refine ⟨hinv.1, ?_⟩
              intro hmem
              rcases (mem_setAdd _ _ _).mp hmem with hx | hx
              · exact hinv.2 hx
              · exact hns hx.symm
            · refine ⟨?_, hinv.2⟩
              intro hmem
              rcases (mem_setAdd _ _ _).mp hmem with hx | hx
              · exact hinv.1 hx
              · exact hns hx.symm
          · exact hinv

/-- The type-only-import step never adds such a name to either set. -/
theorem typeImportStep_scoped_noslash_inv (s : String)
    (h1 : jsStartsWith s "@" = true) (h2 : '/' ∉ s.data)
    (builtins : List String) (st : ImportSets) (imp : String)
    (hinv : s ∉ st.prodImports ∧ s ∉ st.devImports) :
    s ∉ (typeImportStep builtins st imp).prodImports
    ∧ s ∉ (typeImportStep builtins st imp).devImports := by
  unfold typeImportStep
  split
  · exact hinv
  · split
    · exact hinv
    · split
      · exact hinv
      · cases hg : getPackageName (normalizeImportSpecifier imp) with
        | none => simpa [hg] using hinv
        | some n =>
          have hns : n ≠ s :=
            fun he => getPackageName_never_scoped_noslash s h1 h2 _ (he ▸ hg)
          simp only [hg]
          split
          · split
            · exact hinv
            · refine ⟨hinv.1, ?_⟩
              intro hmem
              rcases (mem_setAdd _ _ _).mp hmem with hx | hx
              · exact hinv.2 hx
              · exact hns hx.symm
          · exact hinv

/-- Folding either step over a list of specifiers preserves the invariant. -/
theorem importSteps_scoped_noslash_inv (s : String)
    (h1 : jsStartsWith s "@" = true) (h2 : '/' ∉ s.data)
    (builtins : List String) (st : ImportSets) (fs : FileScan)
    (hinv : s ∉ st.prodImports ∧ s ∉ st.devImports) :
    s ∉ (processFile builtins st fs).prodImports
    ∧ s ∉ (processFile builtins st fs).devImports := by
  unfold processFile
  have step1 : ∀ (l : List String) (st' : ImportSets),
      s ∉ st'.prodImports ∧ s ∉ st'.devImports →
      s ∉ (l.foldl (valueImportStep builtins fs.isDev) st').prodImports
      ∧ s ∉ (l.foldl (valueImportStep builtins fs.isDev) st').devImports := by
    intro l
    induction l with
    | nil => intro st' h; exact h
    | cons x xs ih =>
      intro st' h
      exact ih _ (valueImportStep_scoped_noslash_inv s h1 h2 builtins fs.isDev st' x h)
  have step2 : ∀ (l : List String) (st' : ImportSets),
      s ∉ st'.prodImports ∧ s ∉ st'.devImports →
      s ∉ (l.foldl (typeImportStep builtins) st').prodImports
      ∧ s ∉ (l.foldl (typeImportStep builtins) st').devImports := by
    intro l
    induction l with
    | nil => intro st' h; exact h
    | cons x xs ih =>
      intro st' h
      exact ih _ (typeImportStep_scoped_noslash_inv s h1 h2 builtins st' x h)
  refine step2 fs.parsed.typeOnlyImports _ (step1 fs.parsed.valueImports _ ?_)
  exact ⟨hinv.1, hinv.2⟩

/-- **C10**: a specifier that begins with `@` and contains no `/` is mapped
to `null` by `Analyzer.getPackageName`, and such a name never enters
`prodImports` or `devImports` of any analysis run (no specifier resolves to
it), hence never appears in any package's `missing` list. -/
theorem scoped_specifier_without_slash_ignored (s : String)
    (h1 : jsStartsWith s "@" = true) (h2 : '/' ∉ s.data) :
    getPackageName s = none
    ∧ ∀ (builtins : List String) (pkg : PackageInfo)
        (scanResults : List FileScan) (ignoreDependencies : List String),
        s ∉ (analyze builtins pkg scanResults ignoreDependencies).prodImports
        ∧ s ∉ (analyze builtins pkg scanResults ignoreDependencies).devImports
        ∧ s ∉ (analyze builtins pkg scanResults ignoreDependencies).missing := by
  constructor
  · unfold getPackageName
    rw [if_pos h1, jsSplit_nosep '/' s h2]
  · intro builtins pkg scanResults ignoreDependencies
    have hfold : ∀ (l : List FileScan) (st : ImportSets),
        s ∉ st.prodImports ∧ s ∉ st.devImports →
        s ∉ (l.foldl (processFile builtins) st).prodImports
        ∧ s ∉ (l.foldl (processFile builtins) st).devImports := by
      intro l
      induction l with
      | nil => intro st h; exact h
      | cons fs rest ih =>
        intro st h
        exact ih _ (importSteps_scoped_noslash_inv s h1 h2 builtins st fs h)
    have hst := hfold scanResults ⟨[], [], []⟩ (by simp)
    refine ⟨hst.1, hst.2, ?_⟩
    intro hmem
    have hmem' : s ∈ (setOfList
        ((scanResults.foldl (processFile builtins)
            (⟨[], [], []⟩ : ImportSets)).prodImports
          ++ (scanResults.foldl (processFile builtins)
            (⟨[], [], []⟩ : ImportSets)).devImports)).filter (fun imp =>
        !(ignoreDependencies.contains imp)
          && !(truthyLookup (allDepsOf pkg) imp)) := hmem
    have := mem_of_mem_setOfList _ _ (List.mem_filter.mp hmem').1
    rcases List.mem_append.mp this with hx | hx
    · exact hst.1 hx
    · exact hst.2 hx

/-- **C10** (witness): the theorem applied to the concrete specifier
`"@lodash"` and an empty concrete analysis run. -/
theorem scoped_specifier_without_slash_ignored_witness :
    (jsStartsWith "@lodash" "@" = true ∧ '/' ∉ "@lodash".data)
    ∧ getPackageName "@lodash" = none
    ∧ "@lodash" ∉ (analyze [] emptyRangePkg [emptyRangeScan] []).missing :=
  ⟨⟨by decide, by decide⟩,
    (scoped_specifier_without_slash_ignored "@lodash" (by decide) (by decide)).1,
    ((scoped_specifier_without_slash_ignored "@lodash" (by decide) (by decide)).2
      [] emptyRangePkg [emptyRangeScan] []).2.2⟩

/-! ## Claim C5 -/

theorem mem_updAssoc {β : Type} (k : String) (f : β → β) (d : β)
    (m : List (String × β)) (q : String × β) (hq : q ∈ updAssoc k f d m) :
    q ∈ m ∨ (q.1 = k ∧ (q.2 = f d ∨ ∃ v, (k, v) ∈ m ∧ q.2 = f v)) := by
  induction m with
  | nil =>
    simp [updAssoc] at hq
    right
    rw [hq]
    exact ⟨rfl, Or.inl rfl⟩
  | cons hd tl ih =>
    obtain ⟨k', v⟩ := hd
    unfold updAssoc at hq
    by_cases hk : (k' == k) = true
    · rw [if_pos hk] at hq
      have hk' : k' = k := by simpa using hk
      rcases List.mem_cons.mp hq with hq | hq
      · right
        rw [hq]
        exact ⟨hk', Or.inr ⟨v, by rw [← hk']; exact List.mem_cons_self .., rfl⟩⟩
      · exact Or.inl (List.mem_cons_of_mem _ hq)
    · rw [if_neg hk] at hq
      rcases List.mem_cons.mp hq with hq | hq
      · exact Or.inl (hq ▸ List.mem_cons_self ..)
      · rcases ih hq with h | ⟨h1, h2⟩
        · exact Or.inl (List.mem_cons_of_mem _ h)
        · refine Or.inr ⟨h1, ?_⟩
          rcases h2 with h2 | ⟨w, hw, hqw⟩
          · exact Or.inl h2
          · exact Or.inr ⟨w, List.mem_cons_of_mem _ hw, hqw⟩

theorem uniformAt_consStep (dep r : String) (pkgName : String)
    (m : List (String × List (String × List String))) (entry : String × String)
    (hm : UniformAt dep r m)
    (he : entry.1 = dep → jsStartsWith entry.2 "workspace:" = false →
      jsStartsWith entry.2 "file:" = false → entry.2 = r) :
    UniformAt dep r (consStep pkgName m entry) := by
  unfold consStep
  by_cases hskip : (jsStartsWith entry.2 "workspace:" || jsStartsWith entry.2 "file:") = true
  · rw [if_pos hskip]
    exact hm
  · rw [if_neg hskip]
    have hws : jsStartsWith entry.2 "workspace:" = false := by
      cases h : jsStartsWith entry.2 "workspace:" <;> simp [h] at hskip ⊢
    have hfl : jsStartsWith entry.2 "file:" = false := by
      cases h : jsStartsWith entry.2 "file:" <;> simp [h] at hskip ⊢
    intro p hp hpdep
    rcases mem_updAssoc _ _ _ _ _ hp with h | ⟨h1, h2⟩
    · exact hm p h hpdep
    · have hentry : entry.1 = dep := hpdep ▸ h1 ▸ rfl
      have hvr : entry.2 = r := he hentry hws hfl
      rcases h2 with h2 | ⟨vm, hvm, hq⟩
      · right
        refine ⟨[pkgName], ?_⟩
        rw [h2, hvr]
        rfl
      · have := hm (entry.1, vm) hvm hentry
        rcases this with hv0 | ⟨ps, hps⟩
        · right
          refine ⟨[pkgName], ?_⟩
          rw [hq]
          simp only at hv0
          rw [hv0, hvr]
          rfl
        · right
          refine ⟨ps ++ [pkgName], ?_⟩
          rw [hq]
          simp only at hps
          rw [hps, hvr]
          simp [updAssoc]

theorem uniformAt_foldEntries (dep r pkgName : String)
    (entries : List (String × String))
    (m : List (String × List (String × List String)))
    (hm : UniformAt dep r m)
    (he : ∀ e ∈ entries, e.1 = dep → jsStartsWith e.2 "workspace:" = false →
      jsStartsWith e.2 "file:" = false → e.2 = r) :
    UniformAt dep r (entries.foldl (consStep pkgName) m) := by
  induction entries generalizing m with
  | nil => exact hm
  | cons e rest ih =>
    exact ih _ (uniformAt_consStep dep r pkgName m e hm
        (he e (List.mem_cons_self ..)))
      (fun e' h' => he e' (List.mem_cons_of_mem _ h'))

theorem uniformAt_buildDepMap (packages : List PackageInfo) (dep r : String)
    (huni : ∀ pkg ∈ packages, ∀ e ∈ consistencyDeps pkg, e.1 = dep →
      jsStartsWith e.2 "workspace:" = false → jsStartsWith e.2 "file:" = false →
      e.2 = r) :
    UniformAt dep r (buildDepMap packages) := by
  unfold buildDepMap
  have hgen : ∀ (ps : List PackageInfo)
      (m : List (String × List (String × List String))),
      UniformAt dep r m →
      (∀ pkg ∈ ps, ∀ e ∈ consistencyDeps pkg, e.1 = dep →
        jsStartsWith e.2 "workspace:" = false →
        jsStartsWith e.2 "file:" = false → e.2 = r) →
      UniformAt dep r (ps.foldl
        (fun m pkg => (consistencyDeps pkg).foldl (consStep pkg.name) m) m) := by
    intro ps
    induction ps with
    | nil => intro m hm _; exact hm
    | cons pkg rest ih =>
      intro m hm hps
      exact ih _ (uniformAt_foldEntries dep r pkg.name _ m hm
          (hps pkg (List.mem_cons_self ..)))
        (fun p hp => hps p (List.mem_cons_of_mem _ hp))
  exact hgen packages [] (fun p hp _ => absurd hp (List.not_mem_nil p)) huni

/-- **C5**: on the concrete scenario, `d1` declared `^1.0.0` in `a`,`b` and
`^2.0.0` in `c` yields exactly one mismatch record with package sets
`{a,b}` and `{c}`; `s`, declared `1.0.0` everywhere, yields none; the
`workspace:` range of `w` is skipped, leaving its single `2.0.0` range
recordless; and records appear in first-seen dependency order (`d1` before
`d2`).  In general, a dependency whose every non-skipped declared range
equals one fixed string produces no mismatch record. -/
theorem consistency_mismatch_records :
    (consistencyCheck [consPkgA, consPkgB, consPkgC]
      = [⟨"d1", [("^1.0.0", ["a", "b"]), ("^2.0.0", ["c"])]⟩,
         ⟨"d2", [("^3.0.0", ["b"]), ("^4.0.0", ["c"])]⟩])
    ∧ ∀ (packages : List PackageInfo) (dep r : String),
        (∀ pkg ∈ packages,
          (consistencyDeps pkg).all (fun e =>
            e.1 != dep || jsStartsWith e.2 "workspace:"
              || jsStartsWith e.2 "file:" || e.2 == r) = true) →
        ∀ mm ∈ consistencyCheck packages, mm.dependency ≠ dep := by
  constructor
  · decide
  · intro packages dep r huni mm hmm hdep
    have huni' : ∀ pkg ∈ packages, ∀ e ∈ consistencyDeps pkg, e.1 = dep →
        jsStartsWith e.2 "workspace:" = false →
        jsStartsWith e.2 "file:" = false → e.2 = r := by
      intro pkg hpkg e he h1 h2 h3
      have := List.all_eq_true.mp (huni pkg hpkg) e he
      simp only [h1, h2, h3, Bool.or_false, Bool.false_or] at this
      simpa using this
    have hinv := uniformAt_buildDepMap packages dep r huni'
    unfold consistencyCheck at hmm
    obtain ⟨e, he, hememm⟩ := List.mem_map.mp hmm
    have hefil := List.mem_filter.mp he
    have hlen : e.2.length > 1 := by simpa using hefil.2
    have hedep : e.1 = dep := by
      rw [← hdep, ← hememm]
    rcases hinv e hefil.1 hedep with h0 | ⟨ps, hps⟩
    · rw [h0] at hlen
      simp at hlen
    · rw [hps] at hlen
      simp at hlen

/-- **C5** (witness): the uniform-range conjunct applied to the concrete
scenario for the dependency `s`, declared `1.0.0` everywhere: no mismatch
record names `s`. -/
theorem consistency_mismatch_records_witness :
    (∀ pkg ∈ [consPkgA, consPkgB, consPkgC],
      (consistencyDeps pkg).all (fun e =>
        e.1 != "s" || jsStartsWith e.2 "workspace:"
          || jsStartsWith e.2 "file:" || e.2 == "1.0.0") = true)
    ∧ ∀ mm ∈ consistencyCheck [consPkgA, consPkgB, consPkgC],
        mm.dependency ≠ "s" :=
  ⟨by decide,
    (consistency_mismatch_records).2 [consPkgA, consPkgB, consPkgC] "s" "1.0.0"
      (by decide)⟩

/-! ## Claim C7 -/

/-- **C7**: (i) on the concrete two-package workspace, `a` depending on
workspace package `b` at `"1.2.3"` yields exactly the not-workspace issue
for `a`, while `"workspace:*"` yields no issue; (ii) in general, any
declared dependency naming a workspace package with a non-`workspace:`/
`file:` range yields a not-workspace issue for the declaring package, and
(iii) any workspace package name imported by a package (excluding
self-reference) and absent from its declared-dependency union yields an
unlisted-internal issue. -/
theorem internal_reference_issues :
    (internalCheck [wsPkgA, wsPkgB] []
      = [⟨"a", "b", .notWorkspace,
          "Should use \"workspace:*\" instead of \"1.2.3\""⟩])
    ∧ (internalCheck [wsPkgA2, wsPkgB] [] = [])
    ∧ (∀ (packages : List PackageInfo)
        (usedImports : List (String × List String))
        (pkg : PackageInfo) (entry : String × String),
        pkg ∈ packages → entry ∈ internalAllDeps pkg →
        (packages.map (·.name)).contains entry.1 = true →
        jsStartsWith entry.2 "workspace:" = false →
        jsStartsWith entry.2 "file:" = false →
        (⟨pkg.name, entry.1, .notWorkspace,
          "Should use \"workspace:*\" instead of \"" ++ entry.2 ++ "\""⟩ :
            InternalIssue) ∈ internalCheck packages usedImports)
    ∧ (∀ (packages : List PackageInfo)
        (usedImports : List (String × List String))
        (pkg : PackageInfo) (imps : List String) (imp : String),
        pkg ∈ packages → mapGet usedImports pkg.name = some imps →
        imp ∈ imps →
        (packages.map (·.name)).contains imp = true →
        imp ≠ pkg.name →
        jsLookup (internalAllDeps pkg) imp = none →
        (⟨pkg.name, imp, .unlistedInternal,
          "Internal package is imported but not listed in dependencies"⟩ :
            InternalIssue) ∈ internalCheck packages usedImports) := by
  refine ⟨by decide, by decide, ?_, ?_⟩
  · intro packages usedImports pkg entry hpkg hentry hc hws hfl
    unfold internalCheck
    rw [List.mem_flatMap]
    refine ⟨pkg, hpkg, ?_⟩
    rw [List.mem_append]
    left
    rw [List.mem_filterMap]
    refine ⟨entry, hentry, ?_⟩
    simp only [hc, hws, hfl, if_true, if_pos, Bool.not_false, Bool.and_self]
  · intro packages usedImports pkg imps imp hpkg hget himp hc hne hlook
    unfold internalCheck
    rw [List.mem_flatMap]
    refine ⟨pkg, hpkg, ?_⟩
    rw [List.mem_append]
    right
    rw [hget]
    rw [List.mem_filterMap]
    refine ⟨imp, himp, ?_⟩
    have hbne : (imp != pkg.name) = true := by simpa using hne
    have htr : truthyLookup (internalAllDeps pkg) imp = false := by
      unfold truthyLookup
      rw [hlook]
    simp only [hc, hbne, htr, Bool.and_self, if_true, Bool.not_false, if_pos]

/-- **C7** (witness): the general conjuncts applied to the concrete
workspace: `a` both declares `b` at `"1.2.3"` (not-workspace) and, in a
variant with no declaration, imports `b` (unlisted-internal). -/
theorem internal_reference_issues_witness :
    (("b", "1.2.3") ∈ internalAllDeps wsPkgA
      ∧ (⟨"a", "b", .notWorkspace,
          "Should use \"workspace:*\" instead of \"" ++ "1.2.3" ++ "\""⟩ :
            InternalIssue) ∈ internalCheck [wsPkgA, wsPkgB] [])
    ∧ ((⟨"a", "b", .unlistedInternal,
          "Internal package is imported but not listed in dependencies"⟩ :
            InternalIssue) ∈
        internalCheck [⟨"a", "/ws/a", [], [], [], []⟩, wsPkgB] [("a", ["b"])]) :=
  ⟨⟨by decide,
    internal_reference_issues.2.2.1 [wsPkgA, wsPkgB] [] wsPkgA ("b", "1.2.3")
      (by decide) (by decide) (by decide) (by decide) (by decide)⟩,
   internal_reference_issues.2.2.2 [⟨"a", "/ws/a", [], [], [], []⟩, wsPkgB]
      [("a", ["b"])] ⟨"a", "/ws/a", [], [], [], []⟩ ["b"] "b"
      (by decide) (by decide) (by decide) (by decide) (by decide) (by decide)⟩

/-! ## Claim C6 -/

/-- **C6**: the declared-level peer check.  Concretely: peer
`react@^18.0.0` with the root providing `react@^17.0.0` and no local
declaration yields exactly the incompatible-peer issue; with no provider
anywhere it yields exactly the missing-peer issue; an unparsable peer range
(`latest`) and an unparsable provided version (`beta`) yield no issue.  In
general, for every package and every non-`workspace:`/`file:` peer entry:
an absent provider produces the missing-peer issue, and a provider whose
`cleanVersion`-normalized version fails the range produces the
incompatible-peer issue. -/
theorem declared_peer_check_issues :
    (peerCheck [reactApp] (some react17Root)
      = [⟨"app", "app", "react", .incompatiblePeer,
          "Peer requires react@^18.0.0 but found ^17.0.0"⟩])
    ∧ (peerCheck [reactApp] none
      = [⟨"app", "app", "react", .missingPeer,
          "Peer dependency react@^18.0.0 is not installed"⟩])
    ∧ (peerCheck [latestPeerPkg] (some fooRoot) = [])
    ∧ (peerCheck [barPeerPkg] (some betaRoot) = [])
    ∧ (∀ (packages : List PackageInfo) (rootPkg : Option PackageInfo)
        (pkg : PackageInfo) (peerName peerRange : String),
        pkg ∈ packages → (peerName, peerRange) ∈ pkg.peerDependencies →
        jsStartsWith peerRange "workspace:" = false →
        jsStartsWith peerRange "file:" = false →
        providedVersionFor (spread pkg.dependencies pkg.devDependencies)
          (availableDepsOf rootPkg) peerName = none →
        (⟨pkg.name, pkg.name, peerName, .missingPeer,
          "Peer dependency " ++ peerName ++ "@" ++ peerRange
            ++ " is not installed"⟩ : PeerIssue) ∈ peerCheck packages rootPkg)
    ∧ (∀ (packages : List PackageInfo) (rootPkg : Option PackageInfo)
        (pkg : PackageInfo) (peerName peerRange pv cv : String),
        pkg ∈ packages → (peerName, peerRange) ∈ pkg.peerDependencies →
        jsStartsWith peerRange "workspace:" = false →
        jsStartsWith peerRange "file:" = false →
        providedVersionFor (spread pkg.dependencies pkg.devDependencies)
          (availableDepsOf rootPkg) peerName = some pv →
        pv ≠ "" → cleanVersion pv = some cv → satisfies cv peerRange = false →
        (⟨pkg.name, pkg.name, peerName, .incompatiblePeer,
          "Peer requires " ++ peerName ++ "@" ++ peerRange
            ++ " but found " ++ pv⟩ : PeerIssue) ∈ peerCheck packages rootPkg) := by
  refine ⟨by decide, by decide, by decide, by decide, ?_, ?_⟩
  · intro packages rootPkg pkg peerName peerRange hpkg hpeer hws hfl hnone
    unfold peerCheck
    rw [List.mem_flatMap]
    refine ⟨pkg, hpkg, ?_⟩
    rw [List.mem_filterMap]
    refine ⟨(peerName, peerRange), hpeer, ?_⟩
    unfold peerEntryIssue
    simp only [hws, hfl, Bool.or_self, if_false, hnone, Bool.false_eq_true]
  · intro packages rootPkg pkg peerName peerRange pv cv hpkg hpeer hws hfl
      hprov hpv hclean hsat
    unfold peerCheck
    rw [List.mem_flatMap]
    refine ⟨pkg, hpkg, ?_⟩
    rw [List.mem_filterMap]
    refine ⟨(peerName, peerRange), hpeer, ?_⟩
    unfold peerEntryIssue
    have hpvb : (pv == "") = false := by simpa using hpv
    simp only [hws, hfl, Bool.or_self, if_false, hprov, hpvb, hclean, hsat,
      Bool.false_eq_true, Bool.not_false, if_true]

/-- **C6** (witness): the general conjuncts applied concretely — the
missing-peer membership for `reactApp` with no root, and the
incompatible-peer membership for `reactApp` with the `^17.0.0` root. -/
theorem declared_peer_check_issues_witness :
    ((⟨"app", "app", "react", .missingPeer,
        "Peer dependency " ++ "react" ++ "@" ++ "^18.0.0"
          ++ " is not installed"⟩ : PeerIssue) ∈ peerCheck [reactApp] none)
    ∧ ((⟨"app", "app", "react", .incompatiblePeer,
        "Peer requires " ++ "react" ++ "@" ++ "^18.0.0"
          ++ " but found " ++ "^17.0.0"⟩ : PeerIssue)
        ∈ peerCheck [reactApp] (some react17Root)) :=
  ⟨declared_peer_check_issues.2.2.2.2.1 [reactApp] none reactApp
      "react" "^18.0.0" (by decide) (by decide) (by decide) (by decide)
      (by decide),
   declared_peer_check_issues.2.2.2.2.2 [reactApp] (some react17Root) reactApp
      "react" "^18.0.0" "^17.0.0" "17.0.0" (by decide) (by decide) (by decide)
      (by decide) (by decide) (by decide) (by decide) (by decide)⟩

/-! ## Claim C8 -/

theorem mem_filterMap_wrongType (ks : List String) (cond : String → Bool)
    (exp act : DepField) (dep : String) :
    ((⟨dep, exp, act⟩ : WrongTypeEntry) ∈ ks.filterMap (fun k =>
        if cond k then some ⟨k, exp, act⟩ else none))
      ↔ dep ∈ ks ∧ cond dep = true := by
  rw [List.mem_filterMap]
  constructor
  · rintro ⟨k, hk, hg⟩
    by_cases h : cond k = true
    · rw [if_pos h] at hg
      injection hg with hg
      injection hg with h1 h2 h3
      exact ⟨h1 ▸ hk, h1 ▸ h⟩
    · rw [if_neg h] at hg
      cases hg
  · rintro ⟨hdep, hcond⟩
    exact ⟨dep, hdep, by rw [if_pos hcond]⟩

theorem countP_filterMap_le_count (ks : List String)
    (f : String → Option WrongTypeEntry)
    (hf : ∀ k e, f k = some e → e.dependency = k) (dep : String)
    (p : WrongTypeEntry → Bool) (hp : ∀ e, p e = true → e.dependency = dep) :
    ((ks.filterMap f).countP p) ≤ ks.count dep := by
  induction ks with
  | nil => simp
  | cons k rest ih =>
    cases hfk : f k with
    | none =>
      rw [List.filterMap_cons_none hfk, List.count_cons]
      omega
    | some e =>
      rw [List.filterMap_cons_some hfk, List.countP_cons, List.count_cons]
      by_cases hpe : p e = true
      · have hkd : k = dep := by
          rw [← hf k e hfk]
          exact hp e hpe
        subst hkd
        simp only [hpe, beq_self_eq_true, if_pos]
        omega
      · simp only [hpe, Bool.false_eq_true, if_false]
        by_cases hkd : (k == dep) = true <;>
          simp only [hkd, if_pos, Bool.false_eq_true, if_false] <;> omega

theorem wrongTypeDevEntry_dependency (st : ImportSets)
    (peerDeps : List (String × String)) (k : String) (e : WrongTypeEntry)
    (h : wrongTypeDevEntry st peerDeps k = some e) : e.dependency = k := by
  unfold wrongTypeDevEntry at h
  split at h
  · injection h with h
    rw [← h]
  · cases h

theorem wrongTypeProdEntry_dependency (st : ImportSets)
    (peerDeps : List (String × String)) (k : String) (e : WrongTypeEntry)
    (h : wrongTypeProdEntry st peerDeps k = some e) : e.dependency = k := by
  unfold wrongTypeProdEntry at h
  split at h
  · injection h with h
    rw [← h]
  · cases h

theorem wrongTypeDevEntry_expected (st : ImportSets)
    (peerDeps : List (String × String)) (k : String) (e : WrongTypeEntry)
    (h : wrongTypeDevEntry st peerDeps k = some e) :
    e.expected = DepField.dependencies := by
  unfold wrongTypeDevEntry at h
  split at h
  · injection h with h
    rw [← h]
  · cases h

theorem wrongTypeProdEntry_expected (st : ImportSets)
    (peerDeps : List (String × String)) (k : String) (e : WrongTypeEntry)
    (h : wrongTypeProdEntry st peerDeps k = some e) :
    e.expected = DepField.devDependencies := by
  unfold wrongTypeProdEntry at h
  split at h
  · injection h with h
    rw [← h]
  · cases h

/-- **C8** (counterexample): `emptyPeerRangePkg` dev-declares `x`, also
peer-declares it — with the empty range string — and a prod file imports it.
The exemption in `analyzer.ts` is the truthy test `if (peerDeps[dep])
continue`, which the empty range fails, so the entry *is* produced although
the claim's "nor also peer-declared" exemption says it must not be. -/
theorem wrongType_empty_peer_range_not_exempt :
    (analyze [] emptyPeerRangePkg [emptyPeerRangeScan] []).wrongType
      = [⟨"x", .dependencies, .devDependencies⟩]
    ∧ "x" ∈ keys emptyPeerRangePkg.peerDependencies := by
  refine ⟨by decide, by decide⟩

/-- **C8** (amended): an entry expecting a runtime dependency appears
exactly for each dev-declared name present in `prodImports` that is not an
`@types/` package and not peer-declared *with a non-empty range* (an
empty-string peer range fails the code's truthy exemption); an entry
expecting a dev dependency appears exactly for each runtime-declared name
present in `devImports` but not `prodImports`, with the same exemptions;
and no dependency appears twice for the same direction (given the
manifest's key sets are duplicate-free, as JSON objects are). -/
theorem wrongType_characterization (builtins : List String) (pkg : PackageInfo)
    (scanResults : List FileScan) (ignoreDependencies : List String)
    (dep : String)
    (hnd1 : (keys pkg.devDependencies).Nodup)
    (hnd2 : (keys pkg.dependencies).Nodup) :
    ((⟨dep, .dependencies, .devDependencies⟩ : WrongTypeEntry)
        ∈ (analyze builtins pkg scanResults ignoreDependencies).wrongType
      ↔ dep ∈ keys pkg.devDependencies
        ∧ dep ∈ (analyze builtins pkg scanResults ignoreDependencies).prodImports
        ∧ jsStartsWith dep "@types/" = false
        ∧ truthyLookup pkg.peerDependencies dep = false)
    ∧ ((⟨dep, .devDependencies, .dependencies⟩ : WrongTypeEntry)
        ∈ (analyze builtins pkg scanResults ignoreDependencies).wrongType
      ↔ dep ∈ keys pkg.dependencies
        ∧ dep ∈ (analyze builtins pkg scanResults ignoreDependencies).devImports
        ∧ dep ∉ (analyze builtins pkg scanResults ignoreDependencies).prodImports
        ∧ jsStartsWith dep "@types/" = false
        ∧ truthyLookup pkg.peerDependencies dep = false)
    ∧ (∀ expected : DepField,
        ((analyze builtins pkg scanResults ignoreDependencies).wrongType.countP
          (fun e => e.dependency == dep && e.expected == expected)) ≤ 1) := by
  have hw : (analyze builtins pkg scanResults ignoreDependencies).wrongType
      = (keys pkg.devDependencies).filterMap
          (wrongTypeDevEntry (importState builtins scanResults)
            pkg.peerDependencies)
        ++ (keys pkg.dependencies).filterMap
          (wrongTypeProdEntry (importState builtins scanResults)
            pkg.peerDependencies) := rfl
  refine ⟨?_, ?_, ?_⟩
  · rw [hw, List.mem_append]
    constructor
    · rintro (h | h)
      · have h' := h
        unfold wrongTypeDevEntry at h'
        obtain ⟨hdep, hcond⟩ := (mem_filterMap_wrongType ..).mp h'
        simp only [Bool.and_eq_true, Bool.not_eq_true'] at hcond
        refine ⟨hdep, ?_, hcond.1.2, hcond.2⟩
        have := hcond.1.1
        simpa using this
      · obtain ⟨k, _, hg⟩ := List.mem_filterMap.mp h
        have := wrongTypeProdEntry_expected _ _ _ _ hg
        cases this
    · rintro ⟨hdep, hprod, hty, hpeer⟩
      left
      unfold wrongTypeDevEntry
      rw [mem_filterMap_wrongType]
      refine ⟨hdep, ?_⟩
      simp only [hty, hpeer, Bool.not_false, Bool.and_true]
      simpa using hprod
  · rw [hw, List.mem_append]
    constructor
    · rintro (h | h)
      · obtain ⟨k, _, hg⟩ := List.mem_filterMap.mp h
        have := wrongTypeDevEntry_expected _ _ _ _ hg
        cases this
      · have h' := h
        unfold wrongTypeProdEntry at h'
        obtain ⟨hdep, hcond⟩ := (mem_filterMap_wrongType ..).mp h'
        simp only [Bool.and_eq_true, Bool.not_eq_true'] at hcond
        refine ⟨hdep, ?_, ?_, hcond.1.2, hcond.2⟩
        · have := hcond.1.1.1
          simpa using this
        · intro hmem
          have hc : ((importState builtins scanResults).prodImports.contains dep)
              = true := by simpa using hmem
          rw [hcond.1.1.2] at hc
          cases hc
    · rintro ⟨hdep, hdev, hprod, hty, hpeer⟩
      right
      unfold wrongTypeProdEntry
      rw [mem_filterMap_wrongType]
      refine ⟨hdep, ?_⟩
      simp only [hty, hpeer, Bool.not_false, Bool.and_true]
      simp only [Bool.and_eq_true, Bool.not_eq_true']
      constructor
      · simpa using hdev
      · cases hcc : ((importState builtins scanResults).prodImports.contains dep) with
        | false => rfl
        | true => exact absurd (by simpa using hcc) hprod
  · intro expected
    rw [hw, List.countP_append]
    have hcount1 := List.nodup_iff_count_le_one.mp hnd1 dep
    have hcount2 := List.nodup_iff_count_le_one.mp hnd2 dep
    have hb1 := countP_filterMap_le_count (keys pkg.devDependencies)
      (wrongTypeDevEntry (importState builtins scanResults) pkg.peerDependencies)
      (wrongTypeDevEntry_dependency _ _) dep
      (fun e => e.dependency == dep && e.expected == expected)
      (fun e hpe => by
        have := (Bool.and_eq_true ..).mp hpe
        simpa using this.1)
    have hb2 := countP_filterMap_le_count (keys pkg.dependencies)
      (wrongTypeProdEntry (importState builtins scanResults) pkg.peerDependencies)
      (wrongTypeProdEntry_dependency _ _) dep
      (fun e => e.dependency == dep && e.expected == expected)
      (fun e hpe => by
        have := (Bool.and_eq_true ..).mp hpe
        simpa using this.1)
    cases expected with
    | dependencies =>
      have hz : (((keys pkg.dependencies).filterMap
          (wrongTypeProdEntry (importState builtins scanResults)
            pkg.peerDependencies)).countP
            (fun e => e.dependency == dep
              && e.expected == DepField.dependencies)) = 0 := by
        rw [List.countP_eq_zero]
        intro e he
        obtain ⟨k, _, hg⟩ := List.mem_filterMap.mp he
        have := wrongTypeProdEntry_expected _ _ _ _ hg
        simp [this]
      omega
    | devDependencies =>
      have hz : (((keys pkg.devDependencies).filterMap
          (wrongTypeDevEntry (importState builtins scanResults)
            pkg.peerDependencies)).countP
            (fun e => e.dependency == dep
              && e.expected == DepField.devDependencies)) = 0 := by
        rw [List.countP_eq_zero]
        intro e he
        obtain ⟨k, _, hg⟩ := List.mem_filterMap.mp he
        have := wrongTypeDevEntry_expected _ _ _ _ hg
        simp [this]
      omega

/-- **C8** (witness): the characterization applied to the concrete
empty-peer-range package: the runtime-expectation entry for `x` is present
(its truthy peer exemption fails), and the hypotheses hold concretely. -/
theorem wrongType_characterization_witness :
    ((keys emptyPeerRangePkg.devDependencies).Nodup
      ∧ (keys emptyPeerRangePkg.dependencies).Nodup)
    ∧ ((⟨"x", .dependencies, .devDependencies⟩ : WrongTypeEntry)
        ∈ (analyze [] emptyPeerRangePkg [emptyPeerRangeScan] []).wrongType
      ↔ "x" ∈ keys emptyPeerRangePkg.devDependencies
        ∧ "x" ∈ (analyze [] emptyPeerRangePkg [emptyPeerRangeScan] []).prodImports
        ∧ jsStartsWith "x" "@types/" = false
        ∧ truthyLookup emptyPeerRangePkg.peerDependencies "x" = false) :=
  ⟨⟨by decide, by decide⟩,
   (wrongType_characterization [] emptyPeerRangePkg [emptyPeerRangeScan] [] "x"
      (by decide) (by decide)).1⟩

/-! ## Claim C4 -/

theorem valueImportStep_dyn (builtins : List String) (isDev : Bool)
    (st : ImportSets) (imp : String) :
    (valueImportStep builtins isDev st imp).dynamicCandidates
      = st.dynamicCandidates := by
  unfold valueImportStep
  cases hg : getPackageName (normalizeImportSpecifier imp) <;>
    simp only [hg] <;> split_ifs <;> rfl

theorem valueImportStep_congr (builtins : List String) (isDev : Bool)
    (imp : String) (st st' : ImportSets)
    (h1 : st.prodImports = st'.prodImports)
    (h2 : st.devImports = st'.devImports) :
    (valueImportStep builtins isDev st imp).prodImports
        = (valueImportStep builtins isDev st' imp).prodImports
    ∧ (valueImportStep builtins isDev st imp).devImports
        = (valueImportStep builtins isDev st' imp).devImports := by
  unfold valueImportStep
  cases hg : getPackageName (normalizeImportSpecifier imp) <;>
    simp only [hg] <;> split_ifs <;> exact ⟨by simp [h1], by simp [h2]⟩

theorem typeImportStep_congr (builtins : List String)
    (imp : String) (st st' : ImportSets)
    (h1 : st.prodImports = st'.prodImports)
    (h2 : st.devImports = st'.devImports) :
    (typeImportStep builtins st imp).prodImports
        = (typeImportStep builtins st' imp).prodImports
    ∧ (typeImportStep builtins st imp).devImports
        = (typeImportStep builtins st' imp).devImports := by
  unfold typeImportStep
  rw [h1]
  cases hg : getPackageName (normalizeImportSpecifier imp) <;>
    simp only [hg] <;> split_ifs <;> exact ⟨by simp [h1], by simp [h1, h2]⟩

theorem foldl_valueImportStep_congr (builtins : List String) (isDev : Bool)
    (l : List String) : ∀ (st st' : ImportSets),
    st.prodImports = st'.prodImports → st.devImports = st'.devImports →
    (l.foldl (valueImportStep builtins isDev) st).prodImports
        = (l.foldl (valueImportStep builtins isDev) st').prodImports
    ∧ (l.foldl (valueImportStep builtins isDev) st).devImports
        = (l.foldl (valueImportStep builtins isDev) st').devImports := by
  induction l with
  | nil => intro st st' h1 h2; exact ⟨h1, h2⟩
  | cons x xs ih =>
    intro st st' h1 h2
    obtain ⟨h1', h2'⟩ := valueImportStep_congr builtins isDev x st st' h1 h2
    exact ih _ _ h1' h2'

theorem foldl_typeImportStep_congr (builtins : List String)
    (l : List String) : ∀ (st st' : ImportSets),
    st.prodImports = st'.prodImports → st.devImports = st'.devImports →
    (l.foldl (typeImportStep builtins) st).prodImports
        = (l.foldl (typeImportStep builtins) st').prodImports
    ∧ (l.foldl (typeImportStep builtins) st).devImports
        = (l.foldl (typeImportStep builtins) st').devImports := by
  induction l with
  | nil => intro st st' h1 h2; exact ⟨h1, h2⟩
  | cons x xs ih =>
    intro st st' h1 h2
    obtain ⟨h1', h2'⟩ := typeImportStep_congr builtins x st st' h1 h2
    exact ih _ _ h1' h2'

theorem processFile_congr (builtins : List String) (st st' : ImportSets)
    (fs fs' : FileScan)
    (hd : fs'.isDev = fs.isDev)
    (hv : fs'.parsed.valueImports = fs.parsed.valueImports)
    (ht : fs'.parsed.typeOnlyImports = fs.parsed.typeOnlyImports)
    (h1 : st.prodImports = st'.prodImports)
    (h2 : st.devImports = st'.devImports) :
    (processFile builtins st fs).prodImports
        = (processFile builtins st' fs').prodImports
    ∧ (processFile builtins st fs).devImports
        = (processFile builtins st' fs').devImports := by
  unfold processFile
  rw [hd, hv, ht]
  have hval := foldl_valueImportStep_congr builtins fs.isDev
    fs.parsed.valueImports
    { st with dynamicCandidates := st.dynamicCandidates
        ++ fs.parsed.dynamicCandidates.map (fun c => ⟨fs.file, c.line, c.expression⟩) }
    { st' with dynamicCandidates := st'.dynamicCandidates
        ++ fs'.parsed.dynamicCandidates.map (fun c => ⟨fs'.file, c.line, c.expression⟩) }
    h1 h2
  exact foldl_typeImportStep_congr builtins fs.parsed.typeOnlyImports _ _
    hval.1 hval.2

theorem foldl_processFile_congr (builtins : List String)
    (g : FileScan → List DynCand) (scans : List FileScan) :
    ∀ (st st' : ImportSets),
    st.prodImports = st'.prodImports → st.devImports = st'.devImports →
    ((scans.map (fun fs =>
        { fs with parsed := { fs.parsed with dynamicCandidates := g fs } })).foldl
          (processFile builtins) st).prodImports
      = (scans.foldl (processFile builtins) st').prodImports
    ∧ ((scans.map (fun fs =>
        { fs with parsed := { fs.parsed with dynamicCandidates := g fs } })).foldl
          (processFile builtins) st).devImports
      = (scans.foldl (processFile builtins) st').devImports := by
  induction scans with
  | nil => intro st st' h1 h2; exact ⟨h1, h2⟩
  | cons fs rest ih =>
    intro st st' h1 h2
    obtain ⟨h1', h2'⟩ := processFile_congr builtins st st'
      { fs with parsed := { fs.parsed with dynamicCandidates := g fs } } fs
      rfl rfl rfl h1 h2
    exact ih _ _ h1' h2'

/-- If two scan-result lists accumulate identical prod/dev import sets, all
import-derived fields of `Analyzer.analyze` coincide. -/
theorem analyze_fields_of_importState_eq (builtins : List String)
    (pkg : PackageInfo) (ignoreDependencies : List String)
    (s1 s2 : List FileScan)
    (h1 : (importState builtins s1).prodImports
        = (importState builtins s2).prodImports)
    (h2 : (importState builtins s1).devImports
        = (importState builtins s2).devImports) :
    (analyze builtins pkg s1 ignoreDependencies).unused
        = (analyze builtins pkg s2 ignoreDependencies).unused
    ∧ (analyze builtins pkg s1 ignoreDependencies).missing
        = (analyze builtins pkg s2 ignoreDependencies).missing
    ∧ (analyze builtins pkg s1 ignoreDependencies).prodImports
        = (analyze builtins pkg s2 ignoreDependencies).prodImports
    ∧ (analyze builtins pkg s1 ignoreDependencies).devImports
        = (analyze builtins pkg s2 ignoreDependencies).devImports := by
  refine ⟨?_, ?_, h1, h2⟩
  · show (keys (allDepsOf pkg)).filter (fun dep =>
        !(jsStartsWith dep "@types/") && !(ignoreDependencies.contains dep)
          && !((importState builtins s1).prodImports.contains dep)
          && !((importState builtins s1).devImports.contains dep))
      = (keys (allDepsOf pkg)).filter (fun dep =>
        !(jsStartsWith dep "@types/") && !(ignoreDependencies.contains dep)
          && !((importState builtins s2).prodImports.contains dep)
          && !((importState builtins s2).devImports.contains dep))
    rw [h1, h2]
  · show (setOfList ((importState builtins s1).prodImports
          ++ (importState builtins s1).devImports)).filter (fun imp =>
        !(ignoreDependencies.contains imp)
          && !(truthyLookup (allDepsOf pkg) imp))
      = (setOfList ((importState builtins s2).prodImports
          ++ (importState builtins s2).devImports)).filter (fun imp =>
        !(ignoreDependencies.contains imp)
          && !(truthyLookup (allDepsOf pkg) imp))
    rw [h1, h2]

/-- **C4**: (i) a dynamic `import()` whose first argument is a non-literal
expression records exactly one dynamic candidate carrying the argument's
source text and its 1-based line (`line + 1` over the 0-based AST line), and
changes nothing else — in particular its children are not even visited; (ii)
a `require` call with a single non-literal argument records the same
candidate and otherwise only falls through to visiting the argument's
children; (iii) the per-file dynamic-candidate lists contribute nothing to
`unused`, `missing`, `prodImports` or `devImports`: replacing every file's
candidate list arbitrarily leaves all four results unchanged. -/
theorem dynamic_candidate_recording :
    (∀ (st : PState) (text : String) (line : Nat) (children : List Node)
        (rest : List Arg),
      visitNode st (.dynImport (.expr text line children :: rest))
        = { st with
            dynamicCandidates := st.dynamicCandidates ++ [⟨text, line + 1⟩] })
    ∧ (∀ (st : PState) (text : String) (line : Nat) (children : List Node),
      visitNode st (.requireCall [.expr text line children])
        = visitList { st with
            dynamicCandidates := st.dynamicCandidates ++ [⟨text, line + 1⟩] }
            children)
    ∧ (∀ (builtins : List String) (pkg : PackageInfo)
        (scanResults : List FileScan) (ignoreDependencies : List String)
        (g : FileScan → List DynCand),
      (analyze builtins pkg (scanResults.map (fun fs =>
          { fs with parsed := { fs.parsed with dynamicCandidates := g fs } }))
          ignoreDependencies).unused
        = (analyze builtins pkg scanResults ignoreDependencies).unused
      ∧ (analyze builtins pkg (scanResults.map (fun fs =>
          { fs with parsed := { fs.parsed with dynamicCandidates := g fs } }))
          ignoreDependencies).missing
        = (analyze builtins pkg scanResults ignoreDependencies).missing
      ∧ (analyze builtins pkg (scanResults.map (fun fs =>
          { fs with parsed := { fs.parsed with dynamicCandidates := g fs } }))
          ignoreDependencies).prodImports
        = (analyze builtins pkg scanResults ignoreDependencies).prodImports
      ∧ (analyze builtins pkg (scanResults.map (fun fs =>
          { fs with parsed := { fs.parsed with dynamicCandidates := g fs } }))
          ignoreDependencies).devImports
        = (analyze builtins pkg scanResults ignoreDependencies).devImports) := by
  refine ⟨?_, ?_, ?_⟩
  · intro st text line children rest
    rfl
  · intro st text line children
    rfl
  · intro builtins pkg scanResults ignoreDependencies g
    obtain ⟨hprod, hdev⟩ := foldl_processFile_congr builtins g scanResults
      ⟨[], [], []⟩ ⟨[], [], []⟩ rfl rfl
    exact analyze_fields_of_importState_eq builtins pkg ignoreDependencies
      _ _ hprod hdev

/-! ## Claim C9 -/

theorem mapGet_append_isSome {β : Type} (c1 c2 : List (String × β)) (p : String)
    (h : (mapGet c1 p).isSome) : (mapGet (c1 ++ c2) p).isSome := by
  unfold mapGet at h ⊢
  rw [List.find?_append]
  cases hf : c1.find? (fun q => q.1 == p) <;> rw [hf] at h <;> simp at h ⊢

theorem resolveInstalledManifest_reads_inv (env : InstEnv) (st : InstState)
    (pkgLoc depName p : String) (hp : (env.readManifest p).isSome)
    (h1 : st.reads.count p ≤ 1)
    (h2 : p ∈ st.reads → (mapGet st.cache p).isSome) :
    ((resolveInstalledManifest env st pkgLoc depName).2.reads.count p ≤ 1)
    ∧ (p ∈ (resolveInstalledManifest env st pkgLoc depName).2.reads →
        (mapGet (resolveInstalledManifest env st pkgLoc depName).2.cache p).isSome) := by
  cases hr : env.resolvePath pkgLoc depName with
  | none =>
    simp only [resolveInstalledManifest, hr]
    exact ⟨h1, h2⟩
  | some path =>
    cases hc : mapGet st.cache path with
    | some cached =>
      simp only [resolveInstalledManifest, hr, hc]
      exact ⟨h1, h2⟩
    | none =>
      have hfind : st.cache.find? (fun q => q.1 == path) = none := by
        unfold mapGet at hc
        cases hf : st.cache.find? (fun q => q.1 == path) <;> rw [hf] at hc <;>
          simp at hc ⊢
      cases hm : env.readManifest path with
      | some parsed =>
        simp only [resolveInstalledManifest, hr, hc, hm]
        by_cases hpp : path = p
        · subst hpp
          have hnot : path ∉ st.reads := by
            intro hmem
            have := h2 hmem
            rw [hc] at this
            simp at this
          have hz : st.reads.count path = 0 := List.count_eq_zero.mpr hnot
          constructor
          · simp only [List.count_append]
            simp [hz]
          · intro _
            unfold mapGet
            rw [List.find?_append, hfind]
            simp [List.find?]
        · constructor
          · simp only [List.count_append]
            have hz : List.count p [path] = 0 := by
              rw [List.count_eq_zero]
              intro hmem
              simp at hmem
              exact hpp hmem.symm
            omega
          · intro hmem
            rcases List.mem_append.mp hmem with hmem | hmem
            · exact mapGet_append_isSome _ _ _ (h2 hmem)
            · simp at hmem
              exact absurd hmem.symm hpp
      | none =>
        simp only [resolveInstalledManifest, hr, hc, hm]
        have hpp : path ≠ p := by
          intro he
          rw [← he, hm] at hp
          cases hp
        constructor
        · simp only [List.count_append]
          have hz : List.count p [path] = 0 := by
            rw [List.count_eq_zero]
            intro hmem
            simp at hmem
            exact hpp hmem.symm
          omega
        · intro hmem
          rcases List.mem_append.mp hmem with hmem | hmem
          · exact h2 hmem
          · simp at hmem
            exact absurd hmem.symm hpp

theorem runDeps_reads_inv (env : InstEnv) (pkgLoc pkgName : String)
    (localProvided rootProvided : List (String × String)) (p : String)
    (hp : (env.readManifest p).isSome) (deps : List (String × String)) :
    ∀ (st : InstState),
    (st.reads.count p ≤ 1 ∧ (p ∈ st.reads → (mapGet st.cache p).isSome)) →
    ((runDeps env pkgLoc pkgName localProvided rootProvided st deps).reads.count p ≤ 1
      ∧ (p ∈ (runDeps env pkgLoc pkgName localProvided rootProvided st deps).reads →
        (mapGet (runDeps env pkgLoc pkgName localProvided rootProvided st deps).cache
          p).isSome)) := by
  induction deps with
  | nil => intro st h; exact h
  | cons d rest ih =>
    intro st h
    obtain ⟨dn, dv⟩ := d
    by_cases htrip : tripped env st = true
    · simp only [runDeps, htrip, if_true]
      exact h
    · simp only [runDeps, htrip, Bool.false_eq_true, if_false]
      have hres := resolveInstalledManifest_reads_inv env
        { st with checkIdx := st.checkIdx + 1 } pkgLoc dn p hp h.1 h.2
      cases hr : resolveInstalledManifest env { st with checkIdx := st.checkIdx + 1 }
          pkgLoc dn with
      | mk mOpt st2 =>
        rw [hr] at hres
        try simp only [hr]
        cases mOpt with
        | none => exact ih st2 hres
        | some manifest => exact ih _ hres

theorem runPkgs_reads_inv (env : InstEnv) (rootPkg : Option PackageInfo)
    (p : String) (hp : (env.readManifest p).isSome)
    (packages : List PackageInfo) :
    ∀ (st : InstState),
    (st.reads.count p ≤ 1 ∧ (p ∈ st.reads → (mapGet st.cache p).isSome)) →
    ((runPkgs env rootPkg st packages).reads.count p ≤ 1) := by
  induction packages with
  | nil => intro st h; exact h.1
  | cons pkg rest ih =>
    intro st h
    by_cases htrip : tripped env st = true
    · simp only [runPkgs, htrip, if_true]
      exact h.1
    · simp only [runPkgs, htrip, Bool.false_eq_true, if_false]
      exact ih _ (runDeps_reads_inv env pkg.location pkg.name (providedMapOf pkg)
        (rootProvidedOf rootPkg)
        p hp (declaredDepsOf pkg) { st with checkIdx := st.checkIdx + 1 } h)

theorem runDeps_count_le_cap (env : InstEnv) (pkgLoc pkgName : String)
    (localProvided rootProvided : List (String × String))
    (deps : List (String × String)) :
    ∀ (st : InstState), st.resolvedCount ≤ maxResolvedManifests →
    (runDeps env pkgLoc pkgName localProvided rootProvided st deps).resolvedCount
      ≤ maxResolvedManifests := by
  induction deps with
  | nil => intro st h; exact h
  | cons d rest ih =>
    intro st h
    obtain ⟨dn, dv⟩ := d
    by_cases htrip : tripped env st = true
    · simp only [runDeps, htrip, if_true]
      exact h
    · simp only [runDeps, htrip, Bool.false_eq_true, if_false]
      have hlt : st.resolvedCount < maxResolvedManifests := by
        unfold tripped at htrip
        simp only [Bool.or_eq_true, decide_eq_true_eq, not_or] at htrip
        omega
      have hcount : ∀ (st' : InstState) (mOpt : Option InstManifest),
          resolveInstalledManifest env { st with checkIdx := st.checkIdx + 1 }
              pkgLoc dn = (mOpt, st') →
          st'.resolvedCount = st.resolvedCount := by
        intro st' mOpt hr
        cases hrp : env.resolvePath pkgLoc dn with
        | none =>
          simp only [resolveInstalledManifest, hrp] at hr
          injection hr with h1 h2
          rw [← h2]
        | some path =>
          cases hcc : mapGet st.cache path with
          | some cached =>
            simp only [resolveInstalledManifest, hrp, hcc] at hr
            injection hr with h1 h2
            rw [← h2]
          | none =>
            cases hmm : env.readManifest path with
            | some parsed =>
              simp only [resolveInstalledManifest, hrp, hcc, hmm] at hr
              injection hr with h1 h2
              rw [← h2]
            | none =>
              simp only [resolveInstalledManifest, hrp, hcc, hmm] at hr
              injection hr with h1 h2
              rw [← h2]
      cases hr : resolveInstalledManifest env { st with checkIdx := st.checkIdx + 1 }
          pkgLoc dn with
      | mk mOpt st2 =>
        have hst2 := hcount st2 mOpt hr
        try simp only [hr]
        cases mOpt with
        | none =>
          exact ih st2 (by omega)
        | some manifest =>
          refine ih _ ?_
          show st2.resolvedCount + 1 ≤ maxResolvedManifests
          omega

theorem runPkgs_count_le_cap (env : InstEnv) (rootPkg : Option PackageInfo)
    (packages : List PackageInfo) :
    ∀ (st : InstState), st.resolvedCount ≤ maxResolvedManifests →
    (runPkgs env rootPkg st packages).resolvedCount ≤ maxResolvedManifests := by
  induction packages with
  | nil => intro st h; exact h
  | cons pkg rest ih =>
    intro st h
    by_cases htrip : tripped env st = true
    · simp only [runPkgs, htrip, if_true]
      exact h
    · simp only [runPkgs, htrip, Bool.false_eq_true, if_false]
      exact ih _ (runDeps_count_le_cap env pkg.location pkg.name (providedMapOf pkg)
        (rootProvidedOf rootPkg)
        (declaredDepsOf pkg) { st with checkIdx := st.checkIdx + 1 } h)

/-- **C9** (counterexample): two packages depend on `x`, which resolves to
one manifest path whose content fails to read/parse (`readFileSync` or
`JSON.parse` throws).  Nothing is cached on the failure path of
`resolveInstalledManifest`, so the same resolved path is read from disk
twice in one run — the claim's "every resolved manifest path is read from
disk at most once per run" fails. -/
theorem installed_manifest_reread_on_parse_failure :
    (runPkgs unparsableEnv none instInit [instPkg1, instPkg2]).reads
      = ["/ws/node_modules/x/package.json", "/ws/node_modules/x/package.json"]
    ∧ ((runPkgs unparsableEnv none instInit [instPkg1, instPkg2]).reads.count
        "/ws/node_modules/x/package.json") = 2 := by
  refine ⟨by decide, by decide⟩

/-- **C9** (amended): the installed-peer traversal evaluates the run-wide
cap and the wall-clock deadline before each resolution step; if the deadline
is already exceeded (at every check) it performs no reads and returns no
issues, and from any state at the manifest cap it returns the issues and
reads collected so far; the resolved-manifest count never exceeds the cap;
and every resolved manifest path **whose content reads and parses
successfully** is read from disk at most once per run, because successful
results are cached by resolved path (a manifest that fails to read or parse
is not cached and may be read again). -/
theorem installed_peer_bounds :
    (∀ (env : InstEnv) (packages : List PackageInfo)
        (rootPkg : Option PackageInfo) (p : String),
      (env.readManifest p).isSome →
      ((runPkgs env rootPkg instInit packages).reads.count p) ≤ 1)
    ∧ (∀ (env : InstEnv) (packages : List PackageInfo)
        (rootPkg : Option PackageInfo),
      (runPkgs env rootPkg instInit packages).resolvedCount
        ≤ maxResolvedManifests)
    ∧ (∀ (env : InstEnv) (packages : List PackageInfo)
        (rootPkg : Option PackageInfo),
      (∀ i, env.elapsed i > timeoutMs) →
      (runPkgs env rootPkg instInit packages).issues = []
      ∧ (runPkgs env rootPkg instInit packages).reads = [])
    ∧ (∀ (env : InstEnv) (packages : List PackageInfo)
        (rootPkg : Option PackageInfo) (st : InstState),
      st.resolvedCount ≥ maxResolvedManifests →
      (runPkgs env rootPkg st packages).issues = st.issues
      ∧ (runPkgs env rootPkg st packages).reads = st.reads) := by
  refine ⟨?_, ?_, ?_, ?_⟩
  · intro env packages rootPkg p hp
    exact runPkgs_reads_inv env rootPkg p hp packages instInit
      ⟨by simp [instInit], by intro h; simp [instInit] at h⟩
  · intro env packages rootPkg
    exact runPkgs_count_le_cap env rootPkg packages instInit
      (by simp [instInit, maxResolvedManifests])
  · intro env packages rootPkg hlate
    cases packages with
    | nil => exact ⟨rfl, rfl⟩
    | cons pkg rest =>
      have htrip : tripped env instInit = true := by
        unfold tripped
        simp only [Bool.or_eq_true, decide_eq_true_eq]
        exact Or.inl (hlate 0)
      simp only [runPkgs, htrip, if_true]
      exact ⟨rfl, rfl⟩
  · intro env packages rootPkg st hcap
    cases packages with
    | nil => exact ⟨rfl, rfl⟩
    | cons pkg rest =>
      have htrip : tripped env st = true := by
        unfold tripped
        simp only [Bool.or_eq_true, decide_eq_true_eq]
        right
        omega
      simp only [runPkgs, htrip, if_true]
      trivial

/-- **C9** (witness): the amended bounds applied concretely — a parseable
manifest is read at most once across two dependent packages, and a
past-deadline clock yields an empty, readless run. -/
theorem installed_peer_bounds_witness :
    ((parseOkEnv.readManifest "/ws/node_modules/x/package.json").isSome
      ∧ ((runPkgs parseOkEnv none instInit [instPkg1, instPkg2]).reads.count
          "/ws/node_modules/x/package.json") ≤ 1)
    ∧ ((∀ i, lateClockEnv.elapsed i > timeoutMs)
      ∧ (runPkgs lateClockEnv none instInit [instPkg1, instPkg2]).issues = []) :=
  ⟨⟨by decide,
    installed_peer_bounds.1 parseOkEnv [instPkg1, instPkg2] none
      "/ws/node_modules/x/package.json" (by decide)⟩,
   ⟨fun i => (by decide : (9000 : Nat) > (8000 : Nat)),
    (installed_peer_bounds.2.2.1 lateClockEnv [instPkg1, instPkg2] none
      (fun i => (by decide : (9000 : Nat) > (8000 : Nat)))).1⟩⟩

end Monodep
